import Mathlib

/-!
# all2mp3: the conversion pipeline of `main.go`

A shallow embedding of the non-GUI part of `main.go` (`isSupportedFormat`,
`fileExists`, `findFFmpeg`, `getCurrentDir`, `convertToMp3`, `convertFiles`)
and theorems about it.

Conventions of the embedding.

* A Go `string` is the list of its code points (`GoString`).  Go strings are
  byte sequences; every function modelled here splits strings only at the ASCII
  characters `.`, `/`, `\`, so on valid UTF-8 the two views agree.
* A Go `error` is represented by its message (`err.Error()`).
* Functions of the Go standard library that the program calls are modelled
  from their documented behaviour when they are simple (`filepath.Ext`,
  `filepath.Base`, `strings.ToLower`, `strings.TrimSuffix`, `fmt.Sprintf` with
  `%s`, `%d`, `%v`) and are fields of `Platform` / `Env` when they depend on the
  operating system (`filepath.Join`, `filepath.Dir`, `os.Executable`,
  `os.TempDir`, `exec.LookPath`, the embedded file set, the outcome of
  `ioutil.WriteFile`, and the run of the external `ffmpeg` process).
* The file system is seen through `os.Stat` only: a state `FS` maps every path
  to the class of the `os.Stat` result.  Two different path strings are two
  different entries.
* The output-name loop of `convertFiles` has no bound in the source.  Its
  embedding takes a fuel argument and answers `none` when the fuel does not
  suffice; `convertFiles` then answers `Outcome.hang`.
* `counter` in that loop is a Go `int`; it is a `Nat` here (the loop would have
  to run `2^63` times before a 64-bit `int` wraps).
-/

namespace All2mp3

/-! ## Strings and paths -/

/-- A Go string, as the list of its code points. -/
abbrev GoString := List Char

/-- The parts of the Go runtime library that depend on the target platform. -/
structure Platform where
  /-- Whether GOOS is windows: the backslash is a path separator as well. -/
  windows : Bool
  /-- The function `unicode.ToLower` on runes above the ASCII range. -/
  lowerTable : Char → Char
  /-- The length of `filepath.VolumeName path` (always 0 off Windows). -/
  volumeNameLen : GoString → Nat
  /-- The function `filepath.Join`. -/
  Join : List GoString → GoString
  /-- The function `filepath.Dir`. -/
  Dir : GoString → GoString

/-- The function `os.IsPathSeparator`. -/
def IsPathSeparator (windows : Bool) (c : Char) : Bool :=
  c == '/' || (windows && c == '\\')

/-- The loop of `filepath.Ext`: `n` is `i + 1` for the loop variable `i`, which
runs from `len(path) - 1` down to `0` and stops at a path separator. -/
def ExtLoop (windows : Bool) (path : GoString) : Nat → GoString
  | 0 => []
  | i + 1 =>
    if IsPathSeparator windows (path.getD i ' ') then []
    else if path.getD i ' ' = '.' then path.drop i
    else ExtLoop windows path i

/-- The function `filepath.Ext`. -/
def Ext (windows : Bool) (path : GoString) : GoString :=
  ExtLoop windows path path.length

/-- The function `unicode.ToLower`: on ASCII the letters `A`..`Z` move to
`a`..`z`, above ASCII the case table of the platform decides. -/
def unicodeToLower (pf : Platform) (r : Char) : Char :=
  if r.toNat < 128 then r.toLower else pf.lowerTable r

/-- The function `strings.ToLower` (both its ASCII fast path and
`strings.Map unicode.ToLower` map every rune with `unicode.ToLower`). -/
def ToLower (pf : Platform) (s : GoString) : GoString :=
  s.map (unicodeToLower pf)

/-- The function `strings.TrimSuffix`. -/
def TrimSuffix (s suffix : GoString) : GoString :=
  if suffix.isSuffixOf s then s.take (s.length - suffix.length) else s

/-- The first loop of `filepath.Base`: strip trailing separators. -/
def stripTrailingSeparators (windows : Bool) (path : GoString) : GoString :=
  (path.reverse.dropWhile (IsPathSeparator windows)).reverse

/-- The second loop of `filepath.Base`: the text after the last separator
(the whole path when it has none). -/
def lastElement (windows : Bool) (path : GoString) : GoString :=
  (path.reverse.takeWhile (fun c => !IsPathSeparator windows c)).reverse

/-- The function `filepath.Base`. -/
def Base (pf : Platform) (path : GoString) : GoString :=
  if path = [] then ['.']
  else
    let p1 := stripTrailingSeparators pf.windows path
    let p2 := p1.drop (pf.volumeNameLen p1)
    let p3 := lastElement pf.windows p2
    if p3 = [] then [if pf.windows then '\\' else '/'] else p3

/-- The rendering of `%d` by `fmt.Sprintf` for a non-negative integer. -/
def formatInt (n : Nat) : GoString := Nat.toDigits 10 n

/-! ## Format filter -/

/-- The variable `supportedFormats`. -/
def supportedFormats : List GoString :=
  [".mp4".toList, ".m4a".toList, ".m4s".toList, ".aac".toList, ".avi".toList,
   ".flac".toList, ".wav".toList, ".ogg".toList, ".wmv".toList, ".mov".toList,
   ".mpg".toList, ".mpeg".toList, ".webm".toList, ".mkv".toList]

/-- The function `isSupportedFormat`: the loop over `supportedFormats` answers
true at the first format equal to the lower-cased extension. -/
def isSupportedFormat (pf : Platform) (filename : GoString) : Bool :=
  let ext := ToLower pf (Ext pf.windows filename)
  supportedFormats.any (fun format => decide (ext = format))

/-! ### The extension in the words of the specification -/

/-- The final path segment: the text after the last path separator. -/
def finalSegment (windows : Bool) (p : GoString) : GoString :=
  (p.reverse.takeWhile (fun c => !IsPathSeparator windows c)).reverse

/-- The text of a segment from its last `.` on; empty when it has no `.`. -/
def fromLastDot (seg : GoString) : GoString :=
  if '.' ∈ seg then '.' :: (seg.reverse.takeWhile (fun c => c != '.')).reverse else []

/-- The extension of a path as the specification words it: the text from the
last `.` in the final path segment. -/
def extensionOf (windows : Bool) (p : GoString) : GoString :=
  fromLastDot (finalSegment windows p)

/-- The part of a path up to and including its last separator. -/
def directoryPart (windows : Bool) (p : GoString) : GoString :=
  p.take (p.length - (finalSegment windows p).length)

/-! ## The operating system as the program sees it -/

/-- The three classes of results of `os.Stat` that the program tells apart:
no error, an error for which `os.IsNotExist` holds, any other error. -/
inductive StatResult
  | found
  | notExist
  | failed
deriving DecidableEq

/-- A file-system state: the class of `os.Stat path` for every path. -/
abbrev FS := GoString → StatResult

/-- The state in which `p` has been created; every other path is as before. -/
def FS.create (fs : FS) (p : GoString) : FS :=
  fun q => if q = p then StatResult.found else fs q

/-- The content of a file. -/
abbrev Data := List Nat

/-- The environment of a run: the platform library and the operating system. -/
structure Env extends Platform where
  /-- The path returned by `os.Executable` (its error is dropped by the caller). -/
  Executable : GoString
  /-- The value of `os.TempDir`. -/
  TempDir : GoString
  /-- Whether `exec.LookPath file` returns a nil error in a state. -/
  LookPath : FS → GoString → Bool
  /-- The method `embeddedFiles.ReadFile`: the data, or the error. -/
  embeddedFiles : GoString → Except GoString Data
  /-- Whether `ioutil.WriteFile` fails in a state: `none` when it succeeds, else
  the error and whether the file was created all the same. -/
  writeFailure : FS → GoString → Data → Option (GoString × Bool)
  /-- The run of an external command `exec.Command(name, args...).Run()`:
  its error, if any, and the state it leaves. -/
  Run : FS → GoString → List GoString → Option GoString × FS

/-- The function `ioutil.WriteFile`: after a success the file exists. -/
def WriteFile (env : Env) (fs : FS) (filename : GoString) (data : Data) :
    Option GoString × FS :=
  match env.writeFailure fs filename data with
  | none => (none, fs.create filename)
  | some (cause, created) => (some cause, if created then fs.create filename else fs)

/-- The function `fileExists`: `!os.IsNotExist(err)` for the error of `os.Stat`. -/
def fileExists (fs : FS) (filePath : GoString) : Bool :=
  decide (fs filePath ≠ StatResult.notExist)

/-! ## Executable locator -/

/-- The function `getCurrentDir`. -/
def getCurrentDir (env : Env) : GoString :=
  env.Dir env.Executable

/-- The result of `findFFmpeg`: the returned pair, the state it leaves, and
the files it passed to `ioutil.WriteFile`. -/
structure FindResult where
  /-- The returned `(string, error)`. -/
  value : Except GoString GoString
  /-- The file-system state after the call. -/
  fs : FS
  /-- The names given to `ioutil.WriteFile`, in order. -/
  writes : List GoString

/-- The loop of `findFFmpeg` over the candidate subdirectories. -/
def findInSubdirs (env : Env) (fs : FS) : List GoString → Option GoString
  | [] => none
  | subdir :: rest =>
    let ffmpegPath := env.Join [getCurrentDir env, subdir, "ffmpeg.exe".toList]
    if fileExists fs ffmpegPath then some ffmpegPath else findInSubdirs env fs rest

/-- The function `findFFmpeg`. -/
def findFFmpeg (env : Env) (fs : FS) : FindResult :=
  if env.LookPath fs "ffmpeg".toList then ⟨.ok "ffmpeg".toList, fs, []⟩
  else
    let ffmpegPath := env.Join [getCurrentDir env, "ffmpeg.exe".toList]
    if fileExists fs ffmpegPath then ⟨.ok ffmpegPath, fs, []⟩
    else
      match findInSubdirs env fs ["ffmpeg".toList, "bin".toList, "tools".toList] with
      | some ffmpegPath => ⟨.ok ffmpegPath, fs, []⟩
      | none =>
        let tmpDir := env.TempDir
        let tmpFFmpegPath := env.Join [tmpDir, "ffmpeg.exe".toList]
        if fs tmpFFmpegPath = StatResult.notExist then
          match env.embeddedFiles "ffmpeg.exe".toList with
          | .error err => ⟨.error ("无法读取嵌入的FFmpeg资源: ".toList ++ err), fs, []⟩
          | .ok ffmpegData =>
            match WriteFile env fs tmpFFmpegPath ffmpegData with
            | (some err, fs1) =>
              ⟨.error ("无法写入临时FFmpeg文件: ".toList ++ err), fs1, [tmpFFmpegPath]⟩
            | (none, fs1) => ⟨.ok tmpFFmpegPath, fs1, [tmpFFmpegPath]⟩
        else ⟨.ok tmpFFmpegPath, fs, []⟩

/-! ## Converter and batch driver -/

/-- The type `ConversionResult`. -/
structure ConversionResult where
  /-- The field `Success`. -/
  Success : Bool
  /-- The field `Message`. -/
  Message : GoString
deriving DecidableEq

/-- One call of `convertToMp3`: its arguments and the state it found. -/
structure Invocation where
  /-- The argument `inputFile`. -/
  inputFile : GoString
  /-- The argument `outputFile`. -/
  outputFile : GoString
  /-- The argument `ffmpegPath`. -/
  ffmpegPath : GoString
  /-- The file-system state when the call was made. -/
  fs : FS

/-- The function `convertToMp3`: one run of the external command. -/
def convertToMp3 (env : Env) (fs : FS) (inputFile outputFile ffmpegPath : GoString) :
    Option GoString × FS :=
  let cmdArgs := ["-y".toList, "-i".toList, inputFile, "-vn".toList,
    "-acodec".toList, "libmp3lame".toList, "-ab".toList, "192k".toList,
    "-ar".toList, "44100".toList, "-ac".toList, "2".toList, outputFile]
  env.Run fs ffmpegPath cmdArgs

/-- The loop `for fileExists(outputFile)` of `convertFiles`, entered with the
current `counter` and `outputFile`.  Every evaluation of the loop condition
takes one unit of fuel; `none` means the fuel was used up before the loop ended. -/
def outputLoop (windows : Bool) (fs : FS) (file : GoString) :
    Nat → Nat → GoString → Option GoString
  | 0, _, _ => none
  | fuel + 1, counter, outputFile =>
    if fileExists fs outputFile then
      let base := TrimSuffix file (Ext windows file)
      outputLoop windows fs file fuel (counter + 1)
        (base ++ "_".toList ++ formatInt counter ++ ".mp3".toList)
    else some outputFile

/-- The output path computed in `convertFiles` for a valid `file`. -/
def resolveOutput (windows : Bool) (fs : FS) (file : GoString) (fuel : Nat) :
    Option GoString :=
  outputLoop windows fs file fuel 1 (TrimSuffix file (Ext windows file) ++ ".mp3".toList)

/-- The variables of `convertFiles` while it runs: the results so far and the
file system, with the calls of `convertToMp3` made so far. -/
structure State where
  /-- The slice `results`. -/
  results : List ConversionResult
  /-- The file-system state. -/
  fs : FS
  /-- The calls of `convertToMp3` so far, in order. -/
  calls : List Invocation

/-- The body of the loop over `files` in `convertFiles`; `none` when the
output-name loop does not end within the fuel. -/
def processFile (fuel : Nat) (env : Env) (ffmpegPath : GoString) (st : State)
    (file : GoString) : Option State :=
  if !isSupportedFormat env.toPlatform file || !fileExists st.fs file then
    some { st with results := st.results ++
      [⟨false, "文件不支持或不存在: ".toList ++ Base env.toPlatform file⟩] }
  else
    match resolveOutput env.windows st.fs file fuel with
    | none => none
    | some outputFile =>
      match convertToMp3 env st.fs file outputFile ffmpegPath with
      | (some err, fs1) =>
        some { results := st.results ++
                 [⟨false, "转换失败 ".toList ++ Base env.toPlatform file ++ ": ".toList ++ err⟩]
               fs := fs1
               calls := st.calls ++ [⟨file, outputFile, ffmpegPath, st.fs⟩] }
      | (none, fs1) =>
        some { results := st.results ++
                 [⟨true, "转换成功: ".toList ++ Base env.toPlatform outputFile⟩]
               fs := fs1
               calls := st.calls ++ [⟨file, outputFile, ffmpegPath, st.fs⟩] }

/-- How a call of `convertFiles` ends: it returns (`done`), or an output-name
loop does not end within the fuel (`hang`, with the state when that loop was
entered). -/
inductive Outcome
  | done (st : State)
  | hang (st : State)

/-- The state an outcome carries. -/
def Outcome.state : Outcome → State
  | .done st => st
  | .hang st => st

/-- The loop over `files` in `convertFiles`. -/
def convertLoop (fuel : Nat) (env : Env) (ffmpegPath : GoString) :
    State → List GoString → Outcome
  | st, [] => .done st
  | st, file :: rest =>
    match processFile fuel env ffmpegPath st file with
    | none => .hang st
    | some st1 => convertLoop fuel env ffmpegPath st1 rest

/-- The function `convertFiles`, from the file-system state `fs`. -/
def convertFiles (fuel : Nat) (env : Env) (fs : FS) (files : List GoString) : Outcome :=
  match findFFmpeg env fs with
  | ⟨.error err, fs1, _⟩ => .done ⟨[⟨false, "错误: ".toList ++ err⟩], fs1, []⟩
  | ⟨.ok ffmpegPath, fs1, _⟩ => convertLoop fuel env ffmpegPath ⟨[], fs1, []⟩ files

/-! ## Auxiliary definitions for the statements and proofs -/

/-- The scan of `filepath.Ext` on the reversed path, with the text already
passed in `acc`. -/
def extScan (windows : Bool) : List Char → List Char → List Char
  | [], _ => []
  | c :: rest, acc =>
    if IsPathSeparator windows c then []
    else if c = '.' then c :: acc
    else extScan windows rest (c :: acc)

/-- The sequence `base.mp3`, `base_1.mp3`, `base_2.mp3`, ... of the specification. -/
def candidate (base : GoString) : Nat → GoString
  | 0 => base ++ ".mp3".toList
  | k + 1 => base ++ "_".toList ++ formatInt (k + 1) ++ ".mp3".toList

/-- The value of a decimal digit. -/
def digitValue (c : Char) : Nat := c.toNat - 48

/-- Reading a decimal numeral from the left, starting from `acc`. -/
def parseDigits (acc : Nat) (l : List Char) : Nat :=
  l.foldl (fun a c => 10 * a + digitValue c) acc

/-- The state in which exactly the listed paths exist. -/
def FS.ofList (l : List GoString) : FS :=
  fun p => if p ∈ l then StatResult.found else StatResult.notExist

/-- The path of `ffmpeg.exe` in the program directory. -/
def programFFmpeg (env : Env) : GoString :=
  env.Join [getCurrentDir env, "ffmpeg.exe".toList]

/-- The path of `ffmpeg.exe` in a subdirectory of the program directory. -/
def subdirFFmpeg (env : Env) (subdir : GoString) : GoString :=
  env.Join [getCurrentDir env, subdir, "ffmpeg.exe".toList]

/-- The path of `ffmpeg.exe` in the temp directory. -/
def tmpFFmpegPath (env : Env) : GoString :=
  env.Join [env.TempDir, "ffmpeg.exe".toList]

/-- The first three steps of `findFFmpeg` find nothing: not on the search path,
not in the program directory, not in its subdirectories `ffmpeg`, `bin`, `tools`. -/
def FoundNowhere (env : Env) (fs : FS) : Prop :=
  env.LookPath fs "ffmpeg".toList = false ∧
  fileExists fs (programFFmpeg env) = false ∧
  fileExists fs (subdirFFmpeg env "ffmpeg".toList) = false ∧
  fileExists fs (subdirFFmpeg env "bin".toList) = false ∧
  fileExists fs (subdirFFmpeg env "tools".toList) = false

/-- The part of `findFFmpeg` after the first three steps. -/
def fallback (env : Env) (fs : FS) : FindResult :=
  if fs (tmpFFmpegPath env) = StatResult.notExist then
    match env.embeddedFiles "ffmpeg.exe".toList with
    | .error err => ⟨.error ("无法读取嵌入的FFmpeg资源: ".toList ++ err), fs, []⟩
    | .ok ffmpegData =>
      match WriteFile env fs (tmpFFmpegPath env) ffmpegData with
      | (some err, fs1) =>
        ⟨.error ("无法写入临时FFmpeg文件: ".toList ++ err), fs1, [tmpFFmpegPath env]⟩
      | (none, fs1) => ⟨.ok (tmpFFmpegPath env), fs1, [tmpFFmpegPath env]⟩
  else ⟨.ok (tmpFFmpegPath env), fs, []⟩

/-- The message of a skipped input. -/
def skipResult (env : Env) (file : GoString) : ConversionResult :=
  ⟨false, "文件不支持或不存在: ".toList ++ Base env.toPlatform file⟩

/-- The result appended after a call of `convertToMp3`. -/
def callResult (env : Env) (file outputFile : GoString) : Option GoString → ConversionResult
  | some err => ⟨false, "转换失败 ".toList ++ Base env.toPlatform file ++ ": ".toList ++ err⟩
  | none => ⟨true, "转换成功: ".toList ++ Base env.toPlatform outputFile⟩

/-- The property of a call of `convertToMp3` made by `convertFiles`. -/
def SafeCall (env : Env) (files : List GoString) (c : Invocation) : Prop :=
  c.outputFile ≠ c.inputFile ∧ fileExists c.fs c.outputFile = false ∧
    fileExists c.fs c.inputFile = true ∧ c.inputFile ∈ files ∧
    isSupportedFormat env.toPlatform c.inputFile = true

/-- A Windows platform with drive letters as volume names and joins that only
put a backslash between the elements. -/
def demoPlatform : Platform where
  windows := true
  lowerTable := id
  volumeNameLen := fun p => if p.getD 1 ' ' = ':' then 2 else 0
  Join := fun elems => "\\".toList.intercalate elems
  Dir := fun p => (directoryPart true p).dropLast

/-- An external command that succeeds and creates the file named by its last
argument. -/
def mockRun (fs : FS) (_name : GoString) (args : List GoString) : Option GoString × FS :=
  (none, fs.create (args.getLastD []))

/-- An embedded file set without any file. -/
def emptyEmbed : GoString → Except GoString Data :=
  fun name => .error ("open ".toList ++ name ++ ": file does not exist".toList)

/-- An embedded file set that holds `ffmpeg.exe`. -/
def fullEmbed : GoString → Except GoString Data :=
  fun name => if name = "ffmpeg.exe".toList then .ok [77, 90] else emptyEmbed name

/-- An environment on `demoPlatform` in which writes succeed and the external
command is `mockRun`. -/
def demoEnv (onPath : Bool) (embedded : GoString → Except GoString Data) : Env where
  toPlatform := demoPlatform
  Executable := "C:\\app\\all2mp3.exe".toList
  TempDir := "C:\\Temp".toList
  LookPath := fun _ _ => onPath
  embeddedFiles := embedded
  writeFailure := fun _ _ _ => none
  Run := mockRun

/-- A name of 251 letters. -/
def longBase : GoString := List.replicate 251 'a'

/-- A source file whose name has 255 characters. -/
def longFile : GoString := longBase ++ ".mp4".toList

/-- A file system whose names are limited to 255 characters: `os.Stat` fails
with a name-too-long error on every longer path, `longFile` exists, and every
other path is missing. -/
def longNameFS : FS :=
  fun p => if 255 < p.length then StatResult.failed
    else if p = longFile then StatResult.found else StatResult.notExist

/-! ## Lemmas on paths -/

theorem ExtLoop_eq_extScan (w : Bool) (path : GoString) :
    ∀ n, n ≤ path.length →
      ExtLoop w path n = extScan w (path.take n).reverse (path.drop n) := by
  intro n
  induction n with
  | zero => intro _; simp [ExtLoop, extScan]
  | succ i ih =>
    intro h
    have hi : i < path.length := h
    have e1 : path.getD i ' ' = path[i] := by
      simp [List.getD, List.getElem?_eq_getElem hi]
    have e2 : (path.take (i + 1)).reverse = path[i] :: (path.take i).reverse := by
      rw [List.take_succ]
      simp [List.getElem?_eq_getElem hi]
    have e3 : path.drop i = path[i] :: path.drop (i + 1) := by
      simp
    rw [ExtLoop, e1, e2, extScan, ih (Nat.le_of_lt hi), ← e3]

theorem Ext_eq_extScan (w : Bool) (path : GoString) :
    Ext w path = extScan w path.reverse [] := by
  unfold Ext
  rw [ExtLoop_eq_extScan w path path.length (Nat.le_refl _)]
  simp

theorem dot_not_separator (w : Bool) : IsPathSeparator w '.' = false := by
  cases w <;> decide

theorem fromLastDot_of_not_mem (seg : GoString) (h : '.' ∉ seg) : fromLastDot seg = [] := by
  simp [fromLastDot, h]

theorem fromLastDot_append_dot (x acc : GoString) (h : '.' ∉ acc) :
    fromLastDot (x ++ '.' :: acc) = '.' :: acc := by
  have hmem : '.' ∈ x ++ '.' :: acc := by simp
  have htw : ((x ++ '.' :: acc).reverse.takeWhile (fun c => c != '.')) = acc.reverse := by
    have : (x ++ '.' :: acc).reverse = acc.reverse ++ '.' :: x.reverse := by simp
    rw [this, List.takeWhile_append_of_pos]
    · simp
    · intro c hc
      have : c ∈ acc := by simpa using hc
      have hne : c ≠ '.' := fun e => h (e ▸ this)
      simpa using hne
  simp only [fromLastDot, hmem, if_true, htw, List.reverse_reverse]

theorem extScan_eq_fromLastDot (w : Bool) :
    ∀ (r acc : List Char), '.' ∉ acc →
      extScan w r acc =
        fromLastDot ((r.takeWhile (fun c => !IsPathSeparator w c)).reverse ++ acc) := by
  intro r
  induction r with
  | nil => intro acc h; simp [extScan, fromLastDot_of_not_mem acc h]
  | cons c rest ih =>
    intro acc h
    by_cases hs : IsPathSeparator w c = true
    · simp [extScan, hs, List.takeWhile, fromLastDot_of_not_mem acc h]
    · have hs2 : IsPathSeparator w c = false := by simpa using hs
      by_cases hd : c = '.'
      · subst hd
        simp only [extScan, hs2, List.takeWhile, Bool.not_false, List.reverse_cons,
          List.append_assoc, List.singleton_append, if_true]
        rw [fromLastDot_append_dot _ acc h]
        simp
      · have h2 : '.' ∉ c :: acc := by
          intro hm
          rcases List.mem_cons.1 hm with e | e
          · exact hd e.symm
          · exact h e
        simp only [extScan, hs2, hd, List.takeWhile, Bool.not_false, List.reverse_cons,
          List.append_assoc, List.singleton_append, if_false]
        rw [ih (c :: acc) h2]
        simp

theorem extScan_cases (w : Bool) :
    ∀ (r acc : List Char), extScan w r acc = [] ∨
      ∃ pre mid, r.reverse = pre ++ '.' :: mid ∧ extScan w r acc = '.' :: (mid ++ acc) ∧
        ∀ c ∈ mid, IsPathSeparator w c = false ∧ c ≠ '.' := by
  intro r
  induction r with
  | nil => intro acc; left; rfl
  | cons c rest ih =>
    intro acc
    by_cases hs : IsPathSeparator w c = true
    · left; simp [extScan, hs]
    · have hs2 : IsPathSeparator w c = false := by simpa using hs
      by_cases hd : c = '.'
      · subst hd
        right
        refine ⟨rest.reverse, [], by simp, by simp [extScan, hs2], by simp⟩
      · rcases ih (c :: acc) with h0 | ⟨pre, mid, h1, h2, h3⟩
        · left; simp [extScan, hs2, hd, h0]
        · right
          refine ⟨pre, mid ++ [c], by simp [h1], by simp [extScan, hs2, hd, h2], ?_⟩
          intro x hx
          rcases List.mem_append.1 hx with hx | hx
          · exact h3 x hx
          · have : x = c := by simpa using hx
            subst this
            exact ⟨hs2, hd⟩

theorem extScan_clean (w : Bool) :
    ∀ (mid r acc : List Char), (∀ c ∈ mid, IsPathSeparator w c = false ∧ c ≠ '.') →
      extScan w (mid ++ '.' :: r) acc = '.' :: (mid.reverse ++ acc) := by
  intro mid
  induction mid with
  | nil => intro r acc _; simp [extScan, dot_not_separator]
  | cons c rest ih =>
    intro r acc h
    have hc := h c (List.mem_cons_self _ _)
    have hrest : ∀ x ∈ rest, IsPathSeparator w x = false ∧ x ≠ '.' :=
      fun x hx => h x (List.mem_cons_of_mem _ hx)
    have e : extScan w (c :: rest ++ '.' :: r) acc =
        extScan w (rest ++ '.' :: r) (c :: acc) := by
      simp [extScan, hc.1, hc.2]
    rw [e, ih r (c :: acc) hrest]
    simp

/-- The result of `filepath.Ext` is empty, or it is a suffix `.mid` of the path
in which `mid` has neither a dot nor a separator. -/
theorem Ext_cases (w : Bool) (p : GoString) :
    Ext w p = [] ∨ ∃ pre mid, p = pre ++ '.' :: mid ∧ Ext w p = '.' :: mid ∧
      ∀ c ∈ mid, IsPathSeparator w c = false ∧ c ≠ '.' := by
  rw [Ext_eq_extScan]
  rcases extScan_cases w p.reverse [] with h | ⟨pre, mid, h1, h2, h3⟩
  · left; exact h
  · right
    refine ⟨pre, mid, by simpa using h1, by simpa using h2, h3⟩

/-- A path that ends in `.mid`, with `mid` free of dots and separators, has the
extension `.mid`. -/
theorem Ext_append_dot (w : Bool) (pre mid : GoString)
    (h : ∀ c ∈ mid, IsPathSeparator w c = false ∧ c ≠ '.') :
    Ext w (pre ++ '.' :: mid) = '.' :: mid := by
  rw [Ext_eq_extScan]
  have : (pre ++ '.' :: mid).reverse = mid.reverse ++ '.' :: pre.reverse := by simp
  rw [this, extScan_clean w mid.reverse pre.reverse [] (by simpa using h)]
  simp

/-- The function `filepath.Ext` computes the extension as the specification
words it. -/
theorem Ext_eq_extensionOf (w : Bool) (p : GoString) : Ext w p = extensionOf w p := by
  rw [Ext_eq_extScan, extScan_eq_fromLastDot w p.reverse [] (by simp)]
  simp [extensionOf, finalSegment]

theorem TrimSuffix_append (pre suf : GoString) : TrimSuffix (pre ++ suf) suf = pre := by
  have h : suf.isSuffixOf (pre ++ suf) = true := by
    rw [List.isSuffixOf_iff_suffix]
    exact List.suffix_append pre suf
  simp [TrimSuffix, h]

/-- Stripping the extension and putting it back gives the path. -/
theorem TrimSuffix_Ext_append (w : Bool) (p : GoString) :
    TrimSuffix p (Ext w p) ++ Ext w p = p := by
  rcases Ext_cases w p with h | ⟨pre, mid, h1, h2, _⟩
  · rw [h]; simp [TrimSuffix]
  · rw [h2]
    conv_lhs => rw [h1]
    rw [TrimSuffix_append]
    exact h1.symm

/-! ## Lemmas on letter case -/

theorem toLower_cases (c : Char) :
    c.toLower = c ∨ (65 ≤ c.toNat ∧ c.toNat ≤ 90 ∧ c.toLower = Char.ofNat (c.toNat + 32)) := by
  unfold Char.toLower
  by_cases h : c.toNat ≥ 65 ∧ c.toNat ≤ 90
  · right; exact ⟨h.1, h.2, by simp [h]⟩
  · left; simp only [h, if_false]

theorem ofNat_add_32_props (n : Nat) (h1 : 65 ≤ n) (h2 : n ≤ 90) :
    (Char.ofNat (n + 32)).toNat = n + 32 ∧ Char.ofNat (n + 32) ≠ '.' ∧
      Char.ofNat (n + 32) ≠ '/' ∧ Char.ofNat (n + 32) ≠ '\\' := by
  interval_cases n <;> decide

theorem toLower_lt_128 (c : Char) : c.toLower.toNat < 128 ↔ c.toNat < 128 := by
  rcases toLower_cases c with h | ⟨h1, h2, h3⟩
  · rw [h]
  · rw [h3, (ofNat_add_32_props c.toNat h1 h2).1]
    constructor <;> intro _ <;> omega

theorem unicodeToLower_congr (pf : Platform) (a b : Char) (h : a.toLower = b.toLower) :
    unicodeToLower pf a = unicodeToLower pf b := by
  unfold unicodeToLower
  by_cases ha : a.toNat < 128
  · have hb : b.toNat < 128 := by
      rw [← toLower_lt_128, ← h, toLower_lt_128]; exact ha
    simp [ha, hb, h]
  · have hb : ¬ b.toNat < 128 := by
      rw [← toLower_lt_128, ← h, toLower_lt_128]; exact ha
    have ea : a.toLower = a := by
      rcases toLower_cases a with e | ⟨_, e2, _⟩
      · exact e
      · omega
    have eb : b.toLower = b := by
      rcases toLower_cases b with e | ⟨_, e2, _⟩
      · exact e
      · omega
    have : a = b := by rw [← ea, ← eb, h]
    simp [ha, hb, this]

theorem toLower_eq_special (c d : Char) (hd : d = '.' ∨ d = '/' ∨ d = '\\')
    (h : c.toLower = d) : c = d := by
  rcases toLower_cases c with e | ⟨h1, h2, e⟩
  · rw [← e, h]
  · exfalso
    have p := ofNat_add_32_props c.toNat h1 h2
    rw [← e, h] at p
    rcases hd with r | r | r
    · exact p.2.1 r
    · exact p.2.2.1 r
    · exact p.2.2.2 r

theorem separator_cases (w : Bool) (c : Char) (h : IsPathSeparator w c = true) :
    c = '/' ∨ c = '\\' := by
  simp only [IsPathSeparator, Bool.or_eq_true, Bool.and_eq_true, beq_iff_eq] at h
  rcases h with h | ⟨_, h⟩
  · left; exact h
  · right; exact h

/-- A character that lower-cases like a character that is neither a dot nor a
separator is itself neither. -/
theorem clean_of_toLower_eq (w : Bool) (a b : Char) (h : a.toLower = b.toLower)
    (hb : IsPathSeparator w b = false ∧ b ≠ '.') :
    IsPathSeparator w a = false ∧ a ≠ '.' := by
  constructor
  · by_contra hs
    have hs1 : IsPathSeparator w a = true := by simpa using hs
    have hsp := separator_cases w a hs1
    have ha : a.toLower = a := by
      rcases hsp with r | r <;> subst r <;> decide
    have hba : b = a := by
      apply toLower_eq_special b a (Or.inr hsp)
      rw [← h, ha]
    rw [hba, hs1] at hb
    exact absurd hb.1 (by simp)
  · intro ha
    subst ha
    have : b = '.' := toLower_eq_special b '.' (Or.inl rfl) (by rw [← h]; decide)
    exact hb.2 this

theorem caseFold_lemma (pf : Platform) (w : Bool) :
    ∀ (a b : GoString), a.map Char.toLower = b.map Char.toLower →
      (∀ c ∈ b, IsPathSeparator w c = false ∧ c ≠ '.') →
      (∀ c ∈ a, IsPathSeparator w c = false ∧ c ≠ '.') ∧ ToLower pf a = ToLower pf b := by
  intro a
  induction a with
  | nil =>
    intro b h _
    have : b = [] := by simpa using h.symm
    subst this
    simp [ToLower]
  | cons x xs ih =>
    intro b h hb
    cases b with
    | nil => simp at h
    | cons y ys =>
      simp only [List.map_cons, List.cons.injEq] at h
      have hy := hb y (List.mem_cons_self _ _)
      have hys : ∀ c ∈ ys, IsPathSeparator w c = false ∧ c ≠ '.' :=
        fun c hc => hb c (List.mem_cons_of_mem _ hc)
      obtain ⟨i1, i2⟩ := ih ys h.2 hys
      refine ⟨?_, ?_⟩
      · intro c hc
        rcases List.mem_cons.1 hc with e | e
        · subst e; exact clean_of_toLower_eq w c y h.1 hy
        · exact i1 c e
      · simp only [ToLower, List.map_cons, List.cons.injEq]
        exact ⟨unicodeToLower_congr pf x y h.1, i2⟩

/-- Changing the case of ASCII letters in the extension of a path changes
neither where the extension starts nor its lower-casing. -/
theorem Ext_caseFold (pf : Platform) (stem ext ext2 : GoString)
    (he : Ext pf.windows (stem ++ ext) = ext)
    (hf : ext2.map Char.toLower = ext.map Char.toLower) :
    ToLower pf (Ext pf.windows (stem ++ ext2)) = ToLower pf (Ext pf.windows (stem ++ ext)) := by
  rcases Ext_cases pf.windows (stem ++ ext) with h | ⟨pre, mid, _, h2, h3⟩
  · rw [he] at h
    subst h
    have : ext2 = [] := by simpa using hf
    subst this
    rfl
  · rw [he] at h2
    subst h2
    cases ext2 with
    | nil => simp at hf
    | cons x xs =>
      simp only [List.map_cons, List.cons.injEq] at hf
      have hx : x = '.' := toLower_eq_special x '.' (Or.inl rfl) (by rw [hf.1]; decide)
      subst hx
      obtain ⟨i1, i2⟩ := caseFold_lemma pf pf.windows xs mid hf.2 h3
      rw [Ext_append_dot pf.windows stem xs i1, he]
      simp only [ToLower, List.map_cons, List.cons.injEq, true_and]
      exact i2

theorem isSupportedFormat_eq_true_iff (pf : Platform) (p : GoString) :
    isSupportedFormat pf p = true ↔ ToLower pf (Ext pf.windows p) ∈ supportedFormats := by
  simp [isSupportedFormat, List.any_eq_true]

theorem isSupportedFormat_congr (pf : Platform) (p q : GoString)
    (h : ToLower pf (Ext pf.windows q) = ToLower pf (Ext pf.windows p)) :
    isSupportedFormat pf q = isSupportedFormat pf p := by
  simp only [isSupportedFormat, h]

/-- C3: `isSupportedFormat p` is true exactly when the lower-cased extension of
`p`, the text from the last dot of the final path segment, is one of the 14 fixed
extensions.  Hence two paths whose extensions lower-case to the same text get
the same answer, changing the case of letters in the extension of a path does
not change the answer, and the answer is false when the final segment has no
extension. -/
theorem isSupportedFormat_spec (pf : Platform) (p : GoString) :
    (isSupportedFormat pf p = true ↔
      ToLower pf (extensionOf pf.windows p) ∈
        [".mp4".toList, ".m4a".toList, ".m4s".toList, ".aac".toList, ".avi".toList,
         ".flac".toList, ".wav".toList, ".ogg".toList, ".wmv".toList, ".mov".toList,
         ".mpg".toList, ".mpeg".toList, ".webm".toList, ".mkv".toList]) ∧
    (∀ q, ToLower pf (extensionOf pf.windows q) = ToLower pf (extensionOf pf.windows p) →
      isSupportedFormat pf q = isSupportedFormat pf p) ∧
    (∀ stem ext ext2, p = stem ++ ext → extensionOf pf.windows p = ext →
      ext2.map Char.toLower = ext.map Char.toLower →
      isSupportedFormat pf (stem ++ ext2) = isSupportedFormat pf p) ∧
    ('.' ∉ finalSegment pf.windows p → isSupportedFormat pf p = false) := by
  refine ⟨?_, ?_, ?_, ?_⟩
  · rw [isSupportedFormat_eq_true_iff, Ext_eq_extensionOf]
    rfl
  · intro q h
    apply isSupportedFormat_congr
    rw [Ext_eq_extensionOf, Ext_eq_extensionOf]
    exact h
  · intro stem ext ext2 hp he hf
    subst hp
    apply isSupportedFormat_congr
    rw [← Ext_eq_extensionOf] at he
    exact Ext_caseFold pf stem ext ext2 he hf
  · intro h
    have e : Ext pf.windows p = [] := by
      rw [Ext_eq_extensionOf, extensionOf, fromLastDot_of_not_mem _ h]
    have : ¬ (isSupportedFormat pf p = true) := by
      rw [isSupportedFormat_eq_true_iff, e]
      show ([] : GoString) ∉ supportedFormats
      decide
    simpa using this

/-! ## Lemmas on decimal numerals -/

theorem digitValue_digitChar (k : Nat) (h : k < 10) : digitValue (Nat.digitChar k) = k := by
  interval_cases k <;> decide

theorem parseDigits_toDigitsCore :
    ∀ (fuel n : Nat) (ds : List Char), n < fuel →
      parseDigits 0 (Nat.toDigitsCore 10 fuel n ds) = parseDigits n ds := by
  intro fuel
  induction fuel with
  | zero => intro n ds h; omega
  | succ f ih =>
    intro n ds h
    unfold Nat.toDigitsCore
    by_cases h0 : n / 10 = 0
    · have hn : n % 10 = n := by omega
      have hv := digitValue_digitChar (n % 10) (Nat.mod_lt _ (by decide))
      rw [hn] at hv
      simp only [h0, if_true]
      simp [parseDigits, hn, hv]
    · simp only [h0, if_false]
      rw [ih (n / 10) _ (by omega)]
      simp only [parseDigits, List.foldl_cons,
        digitValue_digitChar (n % 10) (Nat.mod_lt _ (by decide))]
      congr 1
      omega

theorem parseDigits_formatInt (n : Nat) : parseDigits 0 (formatInt n) = n := by
  unfold formatInt Nat.toDigits
  rw [parseDigits_toDigitsCore (n + 1) n [] (Nat.lt_succ_self n)]
  rfl

theorem formatInt_injective (m n : Nat) (h : formatInt m = formatInt n) : m = n := by
  rw [← parseDigits_formatInt m, ← parseDigits_formatInt n, h]

theorem digitChar_not_separator (w : Bool) (k : Nat) (h : k < 10) :
    IsPathSeparator w (Nat.digitChar k) = false := by
  interval_cases k <;> cases w <;> decide

theorem toDigitsCore_not_separator (w : Bool) :
    ∀ (fuel n : Nat) (ds : List Char), (∀ c ∈ ds, IsPathSeparator w c = false) →
      ∀ c ∈ Nat.toDigitsCore 10 fuel n ds, IsPathSeparator w c = false := by
  intro fuel
  induction fuel with
  | zero => intro n ds h c hc; exact h c (by simpa [Nat.toDigitsCore] using hc)
  | succ f ih =>
    intro n ds h
    have hd : ∀ c ∈ Nat.digitChar (n % 10) :: ds, IsPathSeparator w c = false := by
      intro c hc
      rcases List.mem_cons.1 hc with e | e
      · rw [e]; exact digitChar_not_separator w _ (Nat.mod_lt _ (by decide))
      · exact h c e
    unfold Nat.toDigitsCore
    by_cases h0 : n / 10 = 0
    · simp only [h0, if_true]; exact hd
    · simp only [h0, if_false]; exact ih (n / 10) _ hd

theorem formatInt_not_separator (w : Bool) (n : Nat) :
    ∀ c ∈ formatInt n, IsPathSeparator w c = false :=
  toDigitsCore_not_separator w (n + 1) n [] (by simp)

/-! ## Lemmas on candidate names -/

theorem candidate_injective (base : GoString) (j k : Nat)
    (h : candidate base j = candidate base k) : j = k := by
  cases j with
  | zero =>
    cases k with
    | zero => rfl
    | succ k =>
      exfalso
      simp only [candidate, List.append_assoc, List.append_cancel_left_eq] at h
      have h1 : '.' = '_' := (List.cons.inj h).1
      exact absurd h1 (by decide)
  | succ j =>
    cases k with
    | zero =>
      exfalso
      simp only [candidate, List.append_assoc, List.append_cancel_left_eq] at h
      have h1 : '_' = '.' := (List.cons.inj h).1
      exact absurd h1 (by decide)
    | succ k =>
      simp only [candidate, List.append_assoc, List.append_cancel_left_eq] at h
      have h2 : formatInt (j + 1) ++ ".mp3".toList = formatInt (k + 1) ++ ".mp3".toList := by
        simpa using h
      have := formatInt_injective _ _ (List.append_cancel_right h2)
      omega

/-! ## Lemmas on the output-name loop -/

theorem fileExists_create (fs : FS) (p q : GoString) :
    fileExists (fs.create p) q = (decide (q = p) || fileExists fs q) := by
  unfold fileExists FS.create
  by_cases h : q = p <;> simp [h]

theorem resolveOutput_eq (w : Bool) (fs : FS) (file : GoString) (fuel : Nat) :
    resolveOutput w fs file fuel =
      outputLoop w fs file fuel (0 + 1) (candidate (TrimSuffix file (Ext w file)) 0) := rfl

theorem outputLoop_forward (w : Bool) (fs : FS) (file : GoString) :
    ∀ (d i fuel : Nat),
      (∀ j, i ≤ j → j < i + d →
        fileExists fs (candidate (TrimSuffix file (Ext w file)) j) = true) →
      fileExists fs (candidate (TrimSuffix file (Ext w file)) (i + d)) = false →
      d < fuel →
      outputLoop w fs file fuel (i + 1) (candidate (TrimSuffix file (Ext w file)) i) =
        some (candidate (TrimSuffix file (Ext w file)) (i + d)) := by
  intro d
  induction d with
  | zero =>
    intro i fuel _ hfree hfuel
    obtain ⟨f, rfl⟩ : ∃ f, fuel = f + 1 := ⟨fuel - 1, by omega⟩
    simp only [Nat.add_zero] at hfree
    simp [outputLoop, hfree]
  | succ d ih =>
    intro i fuel hex hfree hfuel
    obtain ⟨f, rfl⟩ : ∃ f, fuel = f + 1 := ⟨fuel - 1, by omega⟩
    have h0 := hex i (Nat.le_refl _) (by omega)
    have hstep := ih (i + 1) f (fun j h1 h2 => hex j (by omega) (by omega))
      (by rw [show i + 1 + d = i + (d + 1) by omega]; exact hfree) (by omega)
    rw [show i + 1 + d = i + (d + 1) by omega] at hstep
    rw [← hstep]
    simp only [outputLoop, h0, if_true]
    rfl

theorem outputLoop_backward (w : Bool) (fs : FS) (file : GoString) :
    ∀ (fuel i : Nat) (out : GoString),
      outputLoop w fs file fuel (i + 1) (candidate (TrimSuffix file (Ext w file)) i) = some out →
      ∃ d, d < fuel ∧ out = candidate (TrimSuffix file (Ext w file)) (i + d) ∧
        fileExists fs (candidate (TrimSuffix file (Ext w file)) (i + d)) = false ∧
        ∀ j, i ≤ j → j < i + d →
          fileExists fs (candidate (TrimSuffix file (Ext w file)) j) = true := by
  intro fuel
  induction fuel with
  | zero => intro i out h; simp [outputLoop] at h
  | succ f ih =>
    intro i out h
    by_cases h0 : fileExists fs (candidate (TrimSuffix file (Ext w file)) i) = true
    · have hrec : outputLoop w fs file f (i + 1 + 1)
          (candidate (TrimSuffix file (Ext w file)) (i + 1)) = some out := by
        rw [← h]
        simp only [outputLoop, h0, if_true]
        rfl
      obtain ⟨d, hd, e, hfree, hex⟩ := ih (i + 1) out hrec
      refine ⟨d + 1, by omega, ?_, ?_, ?_⟩
      · rw [e]; congr 1; omega
      · rw [show i + (d + 1) = i + 1 + d by omega]; exact hfree
      · intro j h1 h2
        by_cases hj : j = i
        · rw [hj]; exact h0
        · exact hex j (by omega) (by omega)
    · have h0f : fileExists fs (candidate (TrimSuffix file (Ext w file)) i) = false := by
        simpa using h0
      simp only [outputLoop, h0f, Bool.false_eq_true, if_false, Option.some.injEq] at h
      exact ⟨0, by omega, h.symm, h0f, fun j h1 h2 => by omega⟩

/-- With enough fuel the loop returns the first candidate that does not exist. -/
theorem resolveOutput_of_first_free (w : Bool) (fs : FS) (file : GoString) (k fuel : Nat)
    (hfree : fileExists fs (candidate (TrimSuffix file (Ext w file)) k) = false)
    (hex : ∀ j, j < k → fileExists fs (candidate (TrimSuffix file (Ext w file)) j) = true)
    (hfuel : k < fuel) :
    resolveOutput w fs file fuel = some (candidate (TrimSuffix file (Ext w file)) k) := by
  rw [resolveOutput_eq]
  have := outputLoop_forward w fs file k 0 fuel (fun j _ h2 => hex j (by omega))
    (by rw [Nat.zero_add]; exact hfree) hfuel
  simp only [Nat.zero_add] at this ⊢
  exact this

/-- Whatever the loop returns is the first candidate that does not exist. -/
theorem first_free_of_resolveOutput (w : Bool) (fs : FS) (file : GoString) (fuel : Nat)
    (out : GoString) (h : resolveOutput w fs file fuel = some out) :
    ∃ k, k < fuel ∧ out = candidate (TrimSuffix file (Ext w file)) k ∧
      fileExists fs (candidate (TrimSuffix file (Ext w file)) k) = false ∧
      ∀ j, j < k → fileExists fs (candidate (TrimSuffix file (Ext w file)) j) = true := by
  rw [resolveOutput_eq] at h
  obtain ⟨d, hd, e, hfree, hex⟩ := outputLoop_backward w fs file fuel 0 out h
  rw [Nat.zero_add] at e hfree
  exact ⟨d, hd, e, hfree, fun j hj => hex j (Nat.zero_le _) (by omega)⟩

/-- More fuel does not change a result of the loop. -/
theorem resolveOutput_mono (w : Bool) (fs : FS) (file : GoString) (fuel fuel2 : Nat)
    (out : GoString) (h : resolveOutput w fs file fuel = some out) (hle : fuel ≤ fuel2) :
    resolveOutput w fs file fuel2 = some out := by
  obtain ⟨k, hk, e, hfree, hex⟩ := first_free_of_resolveOutput w fs file fuel out h
  rw [e]
  exact resolveOutput_of_first_free w fs file k fuel2 hfree hex (by omega)

/-! ## Lemmas on directories -/

theorem finalSegment_append (w : Bool) (a x : GoString)
    (hx : ∀ c ∈ x, IsPathSeparator w c = false) :
    finalSegment w (a ++ x) = finalSegment w a ++ x := by
  unfold finalSegment
  rw [List.reverse_append, List.takeWhile_append_of_pos]
  · simp
  · intro c hc
    have : c ∈ x := by simpa using hc
    simp [hx c this]

theorem finalSegment_length_le (w : Bool) (a : GoString) :
    (finalSegment w a).length ≤ a.length := by
  unfold finalSegment
  rw [List.length_reverse]
  have h : ((a.reverse).takeWhile (fun c => !IsPathSeparator w c)).length ≤
      (a.reverse).length := List.Sublist.length_le (List.takeWhile_sublist _)
  simpa using h

/-- Appending text without a separator does not change the directory part. -/
theorem directoryPart_append (w : Bool) (a x : GoString)
    (hx : ∀ c ∈ x, IsPathSeparator w c = false) :
    directoryPart w (a ++ x) = directoryPart w a := by
  unfold directoryPart
  rw [finalSegment_append w a x hx]
  have hle := finalSegment_length_le w a
  have e : (a ++ x).length - (finalSegment w a ++ x).length =
      a.length - (finalSegment w a).length := by
    simp only [List.length_append]; omega
  rw [e, List.take_append_of_le_length (Nat.sub_le _ _)]

theorem Ext_not_separator (w : Bool) (p : GoString) :
    ∀ c ∈ Ext w p, IsPathSeparator w c = false := by
  rcases Ext_cases w p with h | ⟨_, mid, _, h2, h3⟩
  · rw [h]; simp
  · rw [h2]
    intro c hc
    rcases List.mem_cons.1 hc with e | e
    · rw [e]; exact dot_not_separator w
    · exact (h3 c e).1

theorem mp3_not_separator (w : Bool) : ∀ c ∈ ".mp3".toList, IsPathSeparator w c = false := by
  cases w <;> decide

theorem directoryPart_candidate (w : Bool) (base : GoString) (k : Nat) :
    directoryPart w (candidate base k) = directoryPart w base := by
  cases k with
  | zero => exact directoryPart_append w base _ (mp3_not_separator w)
  | succ k =>
    have e : candidate base (k + 1) =
        base ++ ("_".toList ++ formatInt (k + 1) ++ ".mp3".toList) := by
      simp [candidate]
    rw [e]
    apply directoryPart_append
    intro c hc
    rcases List.mem_append.1 hc with h | h
    · rcases List.mem_append.1 h with h | h
      · have : c = '_' := by simpa using h
        rw [this]; cases w <;> decide
      · exact formatInt_not_separator w _ c h
    · exact mp3_not_separator w c h

theorem directoryPart_TrimSuffix (w : Bool) (file : GoString) :
    directoryPart w (TrimSuffix file (Ext w file)) = directoryPart w file := by
  have h := directoryPart_append w (TrimSuffix file (Ext w file)) (Ext w file)
    (Ext_not_separator w file)
  rw [TrimSuffix_Ext_append] at h
  exact h.symm

/-! ## Termination of the output-name loop -/

/-- When some candidate up to index `m` does not exist, `m + 1` checks suffice. -/
theorem resolveOutput_of_free (w : Bool) (fs : FS) (file : GoString) (m : Nat)
    (h : fileExists fs (candidate (TrimSuffix file (Ext w file)) m) = false) :
    ∃ k, k ≤ m ∧
      resolveOutput w fs file (m + 1) = some (candidate (TrimSuffix file (Ext w file)) k) := by
  have hex : ∃ j, fileExists fs (candidate (TrimSuffix file (Ext w file)) j) = false := ⟨m, h⟩
  refine ⟨Nat.find hex, Nat.find_le h, ?_⟩
  apply resolveOutput_of_first_free w fs file (Nat.find hex) (m + 1) (Nat.find_spec hex)
  · intro j hj
    have := Nat.find_min hex hj
    simpa using this
  · exact Nat.lt_succ_of_le (Nat.find_le h)

/-- Among the first `S.card + 1` candidates one lies outside the finite set `S`. -/
theorem exists_candidate_not_mem (base : GoString) (S : Finset GoString) :
    ∃ m, m ≤ S.card ∧ candidate base m ∉ S := by
  by_contra hall
  have hmem : ∀ m ∈ Finset.range (S.card + 1), candidate base m ∈ S := by
    intro m hm
    by_contra hn
    exact hall ⟨m, Nat.lt_succ_iff.1 (Finset.mem_range.1 hm), hn⟩
  have hinj : Set.InjOn (candidate base) (Finset.range (S.card + 1) : Set Nat) :=
    fun a _ b _ hab => candidate_injective base a b hab
  have hc := Finset.card_le_card_of_injOn (candidate base) hmem hinj
  rw [Finset.card_range] at hc
  omega

/-- C10: when every path that `fileExists` reports as existing lies in a finite
set `S`, the output-name loop ends within `S.card + 1` evaluations of its
condition and returns one of the first `S.card + 1` candidates.  The loop has
no cap of its own: in a state where `os.Stat` reports no path as missing (an
error other than not-exist counts as existing) no amount of fuel makes it end. -/
theorem outputLoop_terminates (w : Bool) (fs : FS) (file : GoString) :
    (∀ S : Finset GoString, (∀ p, fileExists fs p = true → p ∈ S) →
      ∃ k, k ≤ S.card ∧
        resolveOutput w fs file (S.card + 1) =
          some (candidate (TrimSuffix file (Ext w file)) k)) ∧
    (∀ fs2 : FS, (∀ p, fs2 p ≠ StatResult.notExist) →
      ∀ fuel, resolveOutput w fs2 file fuel = none) := by
  constructor
  · intro S hS
    obtain ⟨m, hm, hnot⟩ := exists_candidate_not_mem (TrimSuffix file (Ext w file)) S
    have hfree : fileExists fs (candidate (TrimSuffix file (Ext w file)) m) = false := by
      by_contra hne
      exact hnot (hS _ (by simpa using hne))
    obtain ⟨k, hk, hres⟩ := resolveOutput_of_free w fs file m hfree
    refine ⟨k, Nat.le_trans hk hm, ?_⟩
    exact resolveOutput_mono w fs file (m + 1) (S.card + 1) _ hres (by omega)
  · intro fs2 hall fuel
    cases hres : resolveOutput w fs2 file fuel with
    | none => rfl
    | some out =>
      exfalso
      obtain ⟨k, _, _, hfree, _⟩ := first_free_of_resolveOutput w fs2 file fuel out hres
      have := hall (candidate (TrimSuffix file (Ext w file)) k)
      simp [fileExists, this] at hfree

theorem mem_of_fileExists_ofList (l : List GoString) (p : GoString)
    (h : fileExists (FS.ofList l) p = true) : p ∈ l.toFinset := by
  unfold fileExists FS.ofList at h
  by_cases hp : p ∈ l
  · simpa using hp
  · simp [hp] at h

/-- C10 in the state where exactly `a.mp4` and `a.mp3` exist: the loop for
`a.mp4` ends within three checks. -/
theorem outputLoop_terminates_witness :
    ∃ k, k ≤ (["a.mp4".toList, "a.mp3".toList].toFinset).card ∧
      resolveOutput true (FS.ofList ["a.mp4".toList, "a.mp3".toList]) "a.mp4".toList
          ((["a.mp4".toList, "a.mp3".toList].toFinset).card + 1) =
        some (candidate (TrimSuffix "a.mp4".toList (Ext true "a.mp4".toList)) k) :=
  (outputLoop_terminates true (FS.ofList ["a.mp4".toList, "a.mp3".toList])
    "a.mp4".toList).1 ["a.mp4".toList, "a.mp3".toList].toFinset
    (mem_of_fileExists_ofList _)

/-! ## Lemmas on the executable locator -/

theorem findFFmpeg_lookPath (env : Env) (fs : FS)
    (h : env.LookPath fs "ffmpeg".toList = true) :
    findFFmpeg env fs = ⟨.ok "ffmpeg".toList, fs, []⟩ := by
  simp only [findFFmpeg, h, if_true]

theorem findFFmpeg_program (env : Env) (fs : FS)
    (h0 : env.LookPath fs "ffmpeg".toList = false)
    (h1 : fileExists fs (programFFmpeg env) = true) :
    findFFmpeg env fs = ⟨.ok (programFFmpeg env), fs, []⟩ := by
  unfold programFFmpeg at h1
  simp only [findFFmpeg, h0, h1, programFFmpeg, if_true, if_false, Bool.false_eq_true]

theorem findFFmpeg_subdirs (env : Env) (fs : FS) (p : GoString)
    (h0 : env.LookPath fs "ffmpeg".toList = false)
    (h1 : fileExists fs (programFFmpeg env) = false)
    (h2 : findInSubdirs env fs ["ffmpeg".toList, "bin".toList, "tools".toList] = some p) :
    findFFmpeg env fs = ⟨.ok p, fs, []⟩ := by
  unfold programFFmpeg at h1
  simp only [findFFmpeg, h0, h1, h2, if_false, Bool.false_eq_true]

theorem findInSubdirs_none (env : Env) (fs : FS) (h : FoundNowhere env fs) :
    findInSubdirs env fs ["ffmpeg".toList, "bin".toList, "tools".toList] = none := by
  obtain ⟨_, _, h2, h3, h4⟩ := h
  unfold subdirFFmpeg at h2 h3 h4
  simp only [findInSubdirs, h2, h3, h4, if_false, Bool.false_eq_true]

theorem findFFmpeg_fallback (env : Env) (fs : FS) (h : FoundNowhere env fs) :
    findFFmpeg env fs = fallback env fs := by
  have hs := findInSubdirs_none env fs h
  obtain ⟨h0, h1, _⟩ := h
  unfold programFFmpeg at h1
  unfold findFFmpeg fallback tmpFFmpegPath
  simp only [h0, h1, hs, Bool.false_eq_true, if_false]

theorem findFFmpeg_cases (env : Env) (fs : FS) :
    (findFFmpeg env fs).writes = [] ∧ (findFFmpeg env fs).fs = fs ∧
        (∃ p, (findFFmpeg env fs).value = .ok p ∧
          (env.LookPath fs "ffmpeg".toList = true ∧ p = "ffmpeg".toList ∨
            env.LookPath fs "ffmpeg".toList = false ∧ fileExists fs p = true ∧
              p ∈ [programFFmpeg env, subdirFFmpeg env "ffmpeg".toList,
                subdirFFmpeg env "bin".toList, subdirFFmpeg env "tools".toList])) ∨
      FoundNowhere env fs := by
  by_cases h0 : env.LookPath fs "ffmpeg".toList = true
  · left; rw [findFFmpeg_lookPath env fs h0]; exact ⟨rfl, rfl, _, rfl, Or.inl ⟨h0, rfl⟩⟩
  have h0f : env.LookPath fs "ffmpeg".toList = false := by simpa using h0
  by_cases h1 : fileExists fs (programFFmpeg env) = true
  · left; rw [findFFmpeg_program env fs h0f h1]; exact ⟨rfl, rfl, _, rfl, Or.inr ⟨h0f, h1, by simp⟩⟩
  have h1f : fileExists fs (programFFmpeg env) = false := by simpa using h1
  by_cases h2 : fileExists fs (subdirFFmpeg env "ffmpeg".toList) = true
  · left
    rw [findFFmpeg_subdirs env fs (subdirFFmpeg env "ffmpeg".toList) h0f h1f
      (by unfold subdirFFmpeg at h2
          simp only [findInSubdirs, h2, subdirFFmpeg, if_true])]
    exact ⟨rfl, rfl, _, rfl, Or.inr ⟨h0f, h2, by simp⟩⟩
  have h2f : fileExists fs (subdirFFmpeg env "ffmpeg".toList) = false := by simpa using h2
  by_cases h3 : fileExists fs (subdirFFmpeg env "bin".toList) = true
  · left
    rw [findFFmpeg_subdirs env fs (subdirFFmpeg env "bin".toList) h0f h1f
      (by unfold subdirFFmpeg at h2f h3
          simp only [findInSubdirs, h2f, h3, subdirFFmpeg, if_true, if_false,
            Bool.false_eq_true])]
    exact ⟨rfl, rfl, _, rfl, Or.inr ⟨h0f, h3, by simp⟩⟩
  have h3f : fileExists fs (subdirFFmpeg env "bin".toList) = false := by simpa using h3
  by_cases h4 : fileExists fs (subdirFFmpeg env "tools".toList) = true
  · left
    rw [findFFmpeg_subdirs env fs (subdirFFmpeg env "tools".toList) h0f h1f
      (by unfold subdirFFmpeg at h2f h3f h4
          simp only [findInSubdirs, h2f, h3f, h4, subdirFFmpeg, if_true, if_false,
            Bool.false_eq_true])]
    exact ⟨rfl, rfl, _, rfl, Or.inr ⟨h0f, h4, by simp⟩⟩
  have h4f : fileExists fs (subdirFFmpeg env "tools".toList) = false := by simpa using h4
  right
  exact ⟨h0f, h1f, h2f, h3f, h4f⟩

theorem fileExists_eq_false_iff (fs : FS) (p : GoString) :
    fileExists fs p = false ↔ fs p = StatResult.notExist := by
  simp [fileExists]

theorem fallback_of_exists (env : Env) (fs : FS)
    (h : fileExists fs (tmpFFmpegPath env) = true) :
    fallback env fs = ⟨.ok (tmpFFmpegPath env), fs, []⟩ := by
  have h2 : ¬ fs (tmpFFmpegPath env) = StatResult.notExist := by
    simpa [fileExists] using h
  simp only [fallback, h2, if_false]

theorem fallback_read_error (env : Env) (fs : FS) (cause : GoString)
    (h : fileExists fs (tmpFFmpegPath env) = false)
    (hr : env.embeddedFiles "ffmpeg.exe".toList = .error cause) :
    fallback env fs = ⟨.error ("无法读取嵌入的FFmpeg资源: ".toList ++ cause), fs, []⟩ := by
  rw [fileExists_eq_false_iff] at h
  simp only [fallback, h, hr, if_true]

theorem fallback_write_error (env : Env) (fs : FS) (data : Data) (cause : GoString)
    (created : Bool)
    (h : fileExists fs (tmpFFmpegPath env) = false)
    (hr : env.embeddedFiles "ffmpeg.exe".toList = .ok data)
    (hw : env.writeFailure fs (tmpFFmpegPath env) data = some (cause, created)) :
    fallback env fs = ⟨.error ("无法写入临时FFmpeg文件: ".toList ++ cause),
      if created then fs.create (tmpFFmpegPath env) else fs, [tmpFFmpegPath env]⟩ := by
  rw [fileExists_eq_false_iff] at h
  simp only [fallback, h, hr, WriteFile, hw, if_true]

theorem fallback_write_ok (env : Env) (fs : FS) (data : Data)
    (h : fileExists fs (tmpFFmpegPath env) = false)
    (hr : env.embeddedFiles "ffmpeg.exe".toList = .ok data)
    (hw : env.writeFailure fs (tmpFFmpegPath env) data = none) :
    fallback env fs =
      ⟨.ok (tmpFFmpegPath env), fs.create (tmpFFmpegPath env), [tmpFFmpegPath env]⟩ := by
  rw [fileExists_eq_false_iff] at h
  simp only [fallback, h, hr, WriteFile, hw, if_true]

/-- The four ways the last step of `findFFmpeg` can go. -/
theorem fallback_cases (env : Env) (fs : FS) :
    (fileExists fs (tmpFFmpegPath env) = true ∧
        fallback env fs = ⟨.ok (tmpFFmpegPath env), fs, []⟩) ∨
    (fileExists fs (tmpFFmpegPath env) = false ∧
      ((∃ cause, env.embeddedFiles "ffmpeg.exe".toList = .error cause ∧
          fallback env fs =
            ⟨.error ("无法读取嵌入的FFmpeg资源: ".toList ++ cause), fs, []⟩) ∨
       (∃ data cause created, env.embeddedFiles "ffmpeg.exe".toList = .ok data ∧
          env.writeFailure fs (tmpFFmpegPath env) data = some (cause, created) ∧
          fallback env fs = ⟨.error ("无法写入临时FFmpeg文件: ".toList ++ cause),
            if created then fs.create (tmpFFmpegPath env) else fs, [tmpFFmpegPath env]⟩) ∨
       (∃ data, env.embeddedFiles "ffmpeg.exe".toList = .ok data ∧
          env.writeFailure fs (tmpFFmpegPath env) data = none ∧
          fallback env fs = ⟨.ok (tmpFFmpegPath env), fs.create (tmpFFmpegPath env),
            [tmpFFmpegPath env]⟩))) := by
  by_cases h : fileExists fs (tmpFFmpegPath env) = true
  · left; exact ⟨h, fallback_of_exists env fs h⟩
  · right
    have hf : fileExists fs (tmpFFmpegPath env) = false := by simpa using h
    refine ⟨hf, ?_⟩
    cases hr : env.embeddedFiles "ffmpeg.exe".toList with
    | error cause => left; exact ⟨cause, rfl, fallback_read_error env fs cause hf hr⟩
    | ok data =>
      right
      cases hw : env.writeFailure fs (tmpFFmpegPath env) data with
      | none => right; exact ⟨data, rfl, hw, fallback_write_ok env fs data hf hr hw⟩
      | some ce =>
        left
        obtain ⟨cause, created⟩ := ce
        exact ⟨data, cause, created, rfl, hw,
          fallback_write_error env fs data cause created hf hr hw⟩

/-- C6: `findFFmpeg` resolves in a fixed order and the first hit wins: the bare
name `ffmpeg` when the search path finds it, whatever else exists; else
`ffmpeg.exe` in the program directory; else the first of the subdirectories
`ffmpeg`, `bin`, `tools` that has it; else the path in the temp directory is the
only path it can return, and it is returned when that file exists or can be
written.  An error can come from the last step only. -/
theorem findFFmpeg_order (env : Env) (fs : FS) :
    (env.LookPath fs "ffmpeg".toList = true →
      (findFFmpeg env fs).value = .ok "ffmpeg".toList) ∧
    (env.LookPath fs "ffmpeg".toList = false →
      fileExists fs (programFFmpeg env) = true →
      (findFFmpeg env fs).value = .ok (programFFmpeg env)) ∧
    (env.LookPath fs "ffmpeg".toList = false →
      fileExists fs (programFFmpeg env) = false →
      fileExists fs (subdirFFmpeg env "ffmpeg".toList) = true →
      (findFFmpeg env fs).value = .ok (subdirFFmpeg env "ffmpeg".toList)) ∧
    (env.LookPath fs "ffmpeg".toList = false →
      fileExists fs (programFFmpeg env) = false →
      fileExists fs (subdirFFmpeg env "ffmpeg".toList) = false →
      fileExists fs (subdirFFmpeg env "bin".toList) = true →
      (findFFmpeg env fs).value = .ok (subdirFFmpeg env "bin".toList)) ∧
    (env.LookPath fs "ffmpeg".toList = false →
      fileExists fs (programFFmpeg env) = false →
      fileExists fs (subdirFFmpeg env "ffmpeg".toList) = false →
      fileExists fs (subdirFFmpeg env "bin".toList) = false →
      fileExists fs (subdirFFmpeg env "tools".toList) = true →
      (findFFmpeg env fs).value = .ok (subdirFFmpeg env "tools".toList)) ∧
    (FoundNowhere env fs →
      (∀ p, (findFFmpeg env fs).value = .ok p → p = tmpFFmpegPath env) ∧
      (fileExists fs (tmpFFmpegPath env) = true →
        (findFFmpeg env fs).value = .ok (tmpFFmpegPath env)) ∧
      (∀ data, env.embeddedFiles "ffmpeg.exe".toList = .ok data →
        env.writeFailure fs (tmpFFmpegPath env) data = none →
        (findFFmpeg env fs).value = .ok (tmpFFmpegPath env))) ∧
    (∀ e, (findFFmpeg env fs).value = .error e →
      FoundNowhere env fs ∧ fileExists fs (tmpFFmpegPath env) = false) := by
  refine ⟨?_, ?_, ?_, ?_, ?_, ?_, ?_⟩
  · intro h; rw [findFFmpeg_lookPath env fs h]
  · intro h0 h1; rw [findFFmpeg_program env fs h0 h1]
  · intro h0 h1 h2
    rw [findFFmpeg_subdirs env fs (subdirFFmpeg env "ffmpeg".toList) h0 h1
      (by unfold subdirFFmpeg at h2
          simp only [findInSubdirs, h2, subdirFFmpeg, if_true])]
  · intro h0 h1 h2 h3
    rw [findFFmpeg_subdirs env fs (subdirFFmpeg env "bin".toList) h0 h1
      (by unfold subdirFFmpeg at h2 h3
          simp only [findInSubdirs, h2, h3, subdirFFmpeg, if_true, if_false,
            Bool.false_eq_true])]
  · intro h0 h1 h2 h3 h4
    rw [findFFmpeg_subdirs env fs (subdirFFmpeg env "tools".toList) h0 h1
      (by unfold subdirFFmpeg at h2 h3 h4
          simp only [findInSubdirs, h2, h3, h4, subdirFFmpeg, if_true, if_false,
            Bool.false_eq_true])]
  · intro hn
    rw [findFFmpeg_fallback env fs hn]
    refine ⟨?_, ?_, ?_⟩
    · intro p hp
      rcases fallback_cases env fs with ⟨_, e⟩ | ⟨_, ⟨_, _, e⟩ | ⟨_, _, _, _, _, e⟩ | ⟨_, _, _, e⟩⟩
        <;> rw [e] at hp <;> simp at hp <;> exact hp.symm
    · intro h; rw [fallback_of_exists env fs h]
    · intro data hr hw
      by_cases h : fileExists fs (tmpFFmpegPath env) = true
      · rw [fallback_of_exists env fs h]
      · rw [fallback_write_ok env fs data (by simpa using h) hr hw]
  · intro e he
    rcases findFFmpeg_cases env fs with ⟨_, _, p, hp, _⟩ | hn
    · rw [hp] at he; simp at he
    · refine ⟨hn, ?_⟩
      rw [findFFmpeg_fallback env fs hn] at he
      rcases fallback_cases env fs with ⟨_, e1⟩ | ⟨hf, _⟩
      · rw [e1] at he; simp at he
      · exact hf

/-- C7: when the executable is found nowhere, the temp directory included, and
the embedded file set is empty, `findFFmpeg` returns an error that carries the
read error, writes nothing and leaves the file system as it was, so no scratch
file exists afterwards.  Whenever `findFFmpeg` returns an error, either reading
the embedded `ffmpeg.exe` failed or writing the scratch file failed, and the
error message ends with that cause. -/
theorem findFFmpeg_error (env : Env) (fs : FS) :
    (FoundNowhere env fs → fileExists fs (tmpFFmpegPath env) = false →
      (∀ name, ∃ cause, env.embeddedFiles name = .error cause) →
      (∃ cause, env.embeddedFiles "ffmpeg.exe".toList = .error cause ∧
        (findFFmpeg env fs).value =
          .error ("无法读取嵌入的FFmpeg资源: ".toList ++ cause)) ∧
      (findFFmpeg env fs).writes = [] ∧ (findFFmpeg env fs).fs = fs ∧
      fileExists (findFFmpeg env fs).fs (tmpFFmpegPath env) = false) ∧
    (∀ e, (findFFmpeg env fs).value = .error e →
      (∃ cause, env.embeddedFiles "ffmpeg.exe".toList = .error cause ∧
        e = "无法读取嵌入的FFmpeg资源: ".toList ++ cause) ∨
      (∃ data cause created, env.embeddedFiles "ffmpeg.exe".toList = .ok data ∧
        env.writeFailure fs (tmpFFmpegPath env) data = some (cause, created) ∧
        e = "无法写入临时FFmpeg文件: ".toList ++ cause)) := by
  constructor
  · intro hn hf hempty
    obtain ⟨cause, hr⟩ := hempty "ffmpeg.exe".toList
    rw [findFFmpeg_fallback env fs hn, fallback_read_error env fs cause hf hr]
    exact ⟨⟨cause, hr, rfl⟩, rfl, rfl, hf⟩
  · intro e he
    rcases findFFmpeg_cases env fs with ⟨_, _, p, hp, _⟩ | hn
    · rw [hp] at he; simp at he
    · rw [findFFmpeg_fallback env fs hn] at he
      rcases fallback_cases env fs with
        ⟨_, e1⟩ | ⟨_, ⟨c, hr, e1⟩ | ⟨d, c, cr, hr, hw, e1⟩ | ⟨_, _, _, e1⟩⟩
      · rw [e1] at he; simp at he
      · left
        rw [e1] at he
        exact ⟨c, hr, (Except.error.inj he).symm⟩
      · right
        rw [e1] at he
        exact ⟨d, c, cr, hr, hw, (Except.error.inj he).symm⟩
      · rw [e1] at he; simp at he

/-- C8: after a call of `findFFmpeg` that succeeded by writing the embedded
executable to the temp directory, and with the search path still not finding
`ffmpeg`, every later call returns the same path, writes nothing and leaves the
file system as it is.  The first call wrote exactly one file, the returned one. -/
theorem findFFmpeg_idempotent (env : Env) (fs : FS) (p : GoString)
    (hok : (findFFmpeg env fs).value = .ok p)
    (hwr : (findFFmpeg env fs).writes ≠ [])
    (hlp : env.LookPath (findFFmpeg env fs).fs "ffmpeg".toList =
      env.LookPath fs "ffmpeg".toList) :
    p = tmpFFmpegPath env ∧ (findFFmpeg env fs).writes = [p] ∧
    ∀ n, (fun s => (findFFmpeg env s).fs)^[n] (findFFmpeg env fs).fs =
        (findFFmpeg env fs).fs ∧
      findFFmpeg env ((fun s => (findFFmpeg env s).fs)^[n] (findFFmpeg env fs).fs) =
        ⟨.ok p, (findFFmpeg env fs).fs, []⟩ := by
  rcases findFFmpeg_cases env fs with ⟨hw, _⟩ | hn
  · exact absurd hw hwr
  rw [findFFmpeg_fallback env fs hn] at hok hwr hlp ⊢
  rcases fallback_cases env fs with
    ⟨_, e1⟩ | ⟨hf, ⟨_, _, e1⟩ | ⟨_, _, _, _, _, e1⟩ | ⟨data, hr, hw, e1⟩⟩
  · rw [e1] at hwr; simp at hwr
  · rw [e1] at hwr; simp at hwr
  · rw [e1] at hok; simp at hok
  · rw [e1] at hok hlp ⊢
    have hp : p = tmpFFmpegPath env := (Except.ok.inj hok).symm
    subst hp
    simp only at hlp
    have hex : fileExists (fs.create (tmpFFmpegPath env)) (tmpFFmpegPath env) = true := by
      rw [fileExists_create]; simp
    have hsecond : findFFmpeg env (fs.create (tmpFFmpegPath env)) =
        ⟨.ok (tmpFFmpegPath env), fs.create (tmpFFmpegPath env), []⟩ := by
      rcases findFFmpeg_cases env (fs.create (tmpFFmpegPath env)) with
        ⟨h1, h2, q, hq, hcase⟩ | hn2
      · have hq2 : q = tmpFFmpegPath env := by
          rcases hcase with ⟨hl, _⟩ | ⟨_, hqe, hmem⟩
          · rw [hlp, hn.1] at hl; simp at hl
          · rw [fileExists_create] at hqe
            simp only [Bool.or_eq_true, decide_eq_true_eq] at hqe
            rcases hqe with e | e
            · exact e
            · exfalso
              obtain ⟨_, g1, g2, g3, g4⟩ := hn
              simp only [List.mem_cons, List.mem_singleton, List.not_mem_nil, or_false] at hmem
              rcases hmem with r | r | r | r <;> rw [r] at e
              · rw [g1] at e; simp at e
              · rw [g2] at e; simp at e
              · rw [g3] at e; simp at e
              · rw [g4] at e; simp at e
        rw [hq2] at hq
        cases hres : findFFmpeg env (fs.create (tmpFFmpegPath env)) with
        | mk v f ws =>
          rw [hres] at h1 h2 hq
          simp only at h1 h2 hq
          rw [h1, h2, hq]
      · rw [findFFmpeg_fallback env _ hn2, fallback_of_exists env _ hex]
    refine ⟨rfl, rfl, ?_⟩
    intro n
    have hiter : (fun s => (findFFmpeg env s).fs)^[n] (fs.create (tmpFFmpegPath env)) =
        fs.create (tmpFFmpegPath env) := by
      induction n with
      | zero => rfl
      | succ n ih =>
        rw [Function.iterate_succ_apply']
        rw [ih, hsecond]
    exact ⟨hiter, by rw [hiter, hsecond]⟩

/-- C2: when `findFFmpeg` returns an error, `convertFiles` returns, for every
input list, exactly one outcome; it has `Success = false` and its message is
the text `错误: ` followed by the error; `convertToMp3` is called for no input. -/
theorem convertFiles_resolution_error (fuel : Nat) (env : Env) (fs : FS)
    (files : List GoString) (e : GoString)
    (h : (findFFmpeg env fs).value = .error e) :
    ∃ st, convertFiles fuel env fs files = Outcome.done st ∧
      st.results = [⟨false, "错误: ".toList ++ e⟩] ∧ st.results.length = 1 ∧
      st.calls = [] := by
  cases hres : findFFmpeg env fs with
  | mk v f ws =>
    rw [hres] at h
    simp only at h
    subst h
    exact ⟨⟨[⟨false, "错误: ".toList ++ e⟩], f, []⟩, by simp only [convertFiles, hres], rfl,
      rfl, rfl⟩

/-! ## Lemmas on the batch driver -/

theorem processFile_invalid (fuel : Nat) (env : Env) (ff : GoString) (st : State)
    (file : GoString)
    (h : isSupportedFormat env.toPlatform file = false ∨ fileExists st.fs file = false) :
    processFile fuel env ff st file =
      some ⟨st.results ++ [skipResult env file], st.fs, st.calls⟩ := by
  have hc : (!isSupportedFormat env.toPlatform file || !fileExists st.fs file) = true := by
    rcases h with h | h <;> simp [h]
  simp only [processFile, hc, if_true, skipResult]

theorem processFile_valid (fuel : Nat) (env : Env) (ff : GoString) (st : State)
    (file : GoString)
    (h1 : isSupportedFormat env.toPlatform file = true) (h2 : fileExists st.fs file = true) :
    processFile fuel env ff st file =
      match resolveOutput env.windows st.fs file fuel with
      | none => none
      | some outputFile =>
        some ⟨st.results ++
            [callResult env file outputFile (convertToMp3 env st.fs file outputFile ff).1],
          (convertToMp3 env st.fs file outputFile ff).2,
          st.calls ++ [⟨file, outputFile, ff, st.fs⟩]⟩ := by
  have hc : (!isSupportedFormat env.toPlatform file || !fileExists st.fs file) = false := by
    simp [h1, h2]
  simp only [processFile, hc, Bool.false_eq_true, if_false]
  cases resolveOutput env.windows st.fs file fuel with
  | none => rfl
  | some out =>
    simp only
    cases hconv : convertToMp3 env st.fs file out ff with
    | mk e f =>
      cases e <;> simp [callResult]

/-- What one pass of the loop body does when it ends. -/
theorem processFile_some (fuel : Nat) (env : Env) (ff : GoString) (st s2 : State)
    (file : GoString) (h : processFile fuel env ff st file = some s2) :
    ((isSupportedFormat env.toPlatform file = false ∨ fileExists st.fs file = false) ∧
      s2 = ⟨st.results ++ [skipResult env file], st.fs, st.calls⟩) ∨
    (isSupportedFormat env.toPlatform file = true ∧ fileExists st.fs file = true ∧
      ∃ out, resolveOutput env.windows st.fs file fuel = some out ∧
        s2 = ⟨st.results ++ [callResult env file out (convertToMp3 env st.fs file out ff).1],
          (convertToMp3 env st.fs file out ff).2,
          st.calls ++ [⟨file, out, ff, st.fs⟩]⟩) := by
  by_cases h1 : isSupportedFormat env.toPlatform file = true
  · by_cases h2 : fileExists st.fs file = true
    · right
      refine ⟨h1, h2, ?_⟩
      rw [processFile_valid fuel env ff st file h1 h2] at h
      cases hres : resolveOutput env.windows st.fs file fuel with
      | none => rw [hres] at h; simp at h
      | some out =>
        rw [hres] at h
        exact ⟨out, rfl, (Option.some.inj h).symm⟩
    · left
      have h2f : fileExists st.fs file = false := by simpa using h2
      rw [processFile_invalid fuel env ff st file (Or.inr h2f)] at h
      exact ⟨Or.inr h2f, (Option.some.inj h).symm⟩
  · left
    have h1f : isSupportedFormat env.toPlatform file = false := by simpa using h1
    rw [processFile_invalid fuel env ff st file (Or.inl h1f)] at h
    exact ⟨Or.inl h1f, (Option.some.inj h).symm⟩

theorem findFFmpeg_fs (env : Env) (fs : FS) :
    (findFFmpeg env fs).fs = fs ∨ (findFFmpeg env fs).fs = fs.create (tmpFFmpegPath env) := by
  rcases findFFmpeg_cases env fs with ⟨_, h, _⟩ | hn
  · left; exact h
  · rw [findFFmpeg_fallback env fs hn]
    rcases fallback_cases env fs with
      ⟨_, e⟩ | ⟨_, ⟨_, _, e⟩ | ⟨_, _, created, _, _, e⟩ | ⟨_, _, _, e⟩⟩
    · left; rw [e]
    · left; rw [e]
    · rw [e]
      cases created
      · left; rfl
      · right; rfl
    · right; rw [e]

theorem convertFiles_of_ok (fuel : Nat) (env : Env) (fs : FS) (files : List GoString)
    (ff : GoString) (h : (findFFmpeg env fs).value = .ok ff) :
    convertFiles fuel env fs files =
      convertLoop fuel env ff ⟨[], (findFFmpeg env fs).fs, []⟩ files := by
  cases hres : findFFmpeg env fs with
  | mk v f ws =>
    rw [hres] at h
    simp only at h
    subst h
    simp only [convertFiles, hres]

theorem convertLoop_safe (fuel : Nat) (env : Env) (ff : GoString) (files : List GoString) :
    ∀ (rest : List GoString) (st : State), (∀ f ∈ rest, f ∈ files) →
      (∀ c ∈ st.calls, SafeCall env files c) →
      ∀ c ∈ (convertLoop fuel env ff st rest).state.calls, SafeCall env files c := by
  intro rest
  induction rest with
  | nil => intro st _ hst; exact hst
  | cons file rest ih =>
    intro st hmem hst
    cases hp : processFile fuel env ff st file with
    | none => simp only [convertLoop, hp]; exact hst
    | some s1 =>
      simp only [convertLoop, hp]
      apply ih s1 (fun f hf => hmem f (List.mem_cons_of_mem _ hf))
      rcases processFile_some fuel env ff st s1 file hp with ⟨_, e⟩ | ⟨h1, h2, out, hres, e⟩
      · rw [e]; exact hst
      · rw [e]
        intro c hc
        rcases List.mem_append.1 hc with hc | hc
        · exact hst c hc
        · have hc2 : c = ⟨file, out, ff, st.fs⟩ := by simpa using hc
          obtain ⟨k, _, eo, hfree, _⟩ :=
            first_free_of_resolveOutput env.windows st.fs file fuel out hres
          have hout : fileExists st.fs out = false := by rw [eo]; exact hfree
          rw [hc2]
          refine ⟨?_, hout, h2, hmem file (List.mem_cons_self _ _), h1⟩
          intro heq
          simp only at heq
          rw [heq, h2] at hout
          exact absurd hout (by simp)

/-! ## Theorems on `convertFiles` -/

/-- C9: in every run of `convertFiles`, finished or not, each call of
`convertToMp3` gets an output path that differs from its input path and that did
not exist when the call was made, for an input that did exist, is supported and
is one of the given files. -/
theorem convertFiles_calls_safe (fuel : Nat) (env : Env) (fs : FS) (files : List GoString) :
    ∀ c ∈ (convertFiles fuel env fs files).state.calls,
      c.outputFile ≠ c.inputFile ∧ fileExists c.fs c.outputFile = false ∧
        fileExists c.fs c.inputFile = true ∧ c.inputFile ∈ files ∧
        isSupportedFormat env.toPlatform c.inputFile = true := by
  cases hres : findFFmpeg env fs with
  | mk v f ws =>
    cases v with
    | error e =>
      simp only [convertFiles, hres, Outcome.state]
      intro c hc
      simp at hc
    | ok ff =>
      simp only [convertFiles, hres]
      exact convertLoop_safe fuel env ff files files ⟨[], f, []⟩ (fun _ h => h)
        (fun c hc => by simp at hc)

/-! ## The scenario of the specification -/

theorem ToLower_of_ascii (pf : Platform) (s : GoString) (h : ∀ c ∈ s, c.toNat < 128) :
    ToLower pf s = s.map Char.toLower := by
  unfold ToLower
  apply List.map_congr_left
  intro c hc
  simp [unicodeToLower, h c hc]

theorem isSupportedFormat_a_mp4 (pf : Platform) :
    isSupportedFormat pf "a.mp4".toList = true := by
  have he : Ext pf.windows "a.mp4".toList = ".mp4".toList := by
    generalize pf.windows = w
    cases w <;> decide
  rw [isSupportedFormat_eq_true_iff, he, ToLower_of_ascii pf _ (by decide)]
  decide

theorem isSupportedFormat_b_txt (pf : Platform) :
    isSupportedFormat pf "b.txt".toList = false := by
  have he : Ext pf.windows "b.txt".toList = ".txt".toList := by
    generalize pf.windows = w
    cases w <;> decide
  have : ¬ (isSupportedFormat pf "b.txt".toList = true) := by
    rw [isSupportedFormat_eq_true_iff, he, ToLower_of_ascii pf _ (by decide)]
    decide
  simpa using this

theorem Base_of_plain (pf : Platform) (p : GoString) (h0 : p ≠ [])
    (h1 : stripTrailingSeparators pf.windows p = p) (h2 : pf.volumeNameLen p = 0)
    (h3 : lastElement pf.windows p = p) : Base pf p = p := by
  simp [Base, h0, h1, h2, h3]

theorem convertToMp3_of_mock (env : Env) (fs : FS) (inputFile outputFile ff : GoString)
    (hrun : ∀ fs1 name args, env.Run fs1 name args = (none, fs1.create (args.getLastD []))) :
    convertToMp3 env fs inputFile outputFile ff = (none, fs.create outputFile) := by
  simp [convertToMp3, hrun]

/-- C5: for the inputs `a.mp4`, `b.txt`, `a.mp4`, when `a.mp4` exists, neither
`a.mp3` nor `a_1.mp3` exists, `findFFmpeg` succeeds, and the external command
always succeeds and creates its output file (and nothing else), `convertFiles`
returns three outcomes: success naming `a.mp3`, failure naming `b.txt`, success
naming `a_1.mp3`.  (The scratch path of `findFFmpeg` is none of the two output
names, and the three bare names have no volume name.) -/
theorem convertFiles_scenario (fuel : Nat) (env : Env) (fs : FS) (ff : GoString)
    (hfuel : 2 ≤ fuel)
    (hfind : (findFFmpeg env fs).value = .ok ff)
    (ha : fileExists fs "a.mp4".toList = true)
    (hm : fileExists fs "a.mp3".toList = false)
    (hn : fileExists fs "a_1.mp3".toList = false)
    (htmp : tmpFFmpegPath env ≠ "a.mp3".toList ∧ tmpFFmpegPath env ≠ "a_1.mp3".toList)
    (hvol : ∀ p ∈ ["a.mp3".toList, "b.txt".toList, "a_1.mp3".toList],
      env.volumeNameLen p = 0)
    (hrun : ∀ fs1 name args, env.Run fs1 name args = (none, fs1.create (args.getLastD []))) :
    ∃ st, convertFiles fuel env fs ["a.mp4".toList, "b.txt".toList, "a.mp4".toList] =
        Outcome.done st ∧
      st.results = [⟨true, "转换成功: a.mp3".toList⟩,
        ⟨false, "文件不支持或不存在: b.txt".toList⟩,
        ⟨true, "转换成功: a_1.mp3".toList⟩] := by
  -- the state after `findFFmpeg`
  have hA0 : fileExists (findFFmpeg env fs).fs "a.mp4".toList = true := by
    rcases findFFmpeg_fs env fs with e | e <;> rw [e]
    · exact ha
    · rw [fileExists_create, ha]; simp
  have hM0 : fileExists (findFFmpeg env fs).fs "a.mp3".toList = false := by
    rcases findFFmpeg_fs env fs with e | e <;> rw [e]
    · exact hm
    · rw [fileExists_create, hm]
      simp only [Bool.or_false, decide_eq_false_iff_not]
      exact fun h => htmp.1 h.symm
  have hN0 : fileExists (findFFmpeg env fs).fs "a_1.mp3".toList = false := by
    rcases findFFmpeg_fs env fs with e | e <;> rw [e]
    · exact hn
    · rw [fileExists_create, hn]
      simp only [Bool.or_false, decide_eq_false_iff_not]
      exact fun h => htmp.2 h.symm
  obtain ⟨fs0, hfs0⟩ : ∃ fs0, (findFFmpeg env fs).fs = fs0 := ⟨_, rfl⟩
  rw [hfs0] at hA0 hM0 hN0
  -- names
  have hc0 : candidate (TrimSuffix "a.mp4".toList (Ext env.windows "a.mp4".toList)) 0 =
      "a.mp3".toList := by
    generalize env.windows = w
    cases w <;> decide
  have hc1 : candidate (TrimSuffix "a.mp4".toList (Ext env.windows "a.mp4".toList)) 1 =
      "a_1.mp3".toList := by
    generalize env.windows = w
    cases w <;> decide
  have hb1 : Base env.toPlatform "a.mp3".toList = "a.mp3".toList :=
    Base_of_plain _ _ (by decide)
      (by generalize env.windows = w; cases w <;> decide) (hvol _ (by simp))
      (by generalize env.windows = w; cases w <;> decide)
  have hb2 : Base env.toPlatform "b.txt".toList = "b.txt".toList :=
    Base_of_plain _ _ (by decide)
      (by generalize env.windows = w; cases w <;> decide) (hvol _ (by simp))
      (by generalize env.windows = w; cases w <;> decide)
  have hb3 : Base env.toPlatform "a_1.mp3".toList = "a_1.mp3".toList :=
    Base_of_plain _ _ (by decide)
      (by generalize env.windows = w; cases w <;> decide) (hvol _ (by simp))
      (by generalize env.windows = w; cases w <;> decide)
  -- first input
  have hr1 : resolveOutput env.windows fs0 "a.mp4".toList fuel = some "a.mp3".toList := by
    rw [← hc0]
    apply resolveOutput_of_first_free _ _ _ 0 fuel (by rw [hc0]; exact hM0)
      (fun j hj => by omega) (by omega)
  have hp1 := processFile_valid fuel env ff ⟨[], fs0, []⟩ "a.mp4".toList
    (isSupportedFormat_a_mp4 _) hA0
  simp only [hr1, convertToMp3_of_mock env _ _ _ _ hrun] at hp1
  -- second input
  have hp2 := processFile_invalid fuel env ff
    ⟨[] ++ [callResult env "a.mp4".toList "a.mp3".toList none],
      fs0.create "a.mp3".toList,
      [] ++ [⟨"a.mp4".toList, "a.mp3".toList, ff, fs0⟩]⟩ "b.txt".toList
    (Or.inl (isSupportedFormat_b_txt _))
  -- third input
  have hA1 : fileExists (fs0.create "a.mp3".toList) "a.mp4".toList = true := by
    rw [fileExists_create, hA0]; simp
  have hM1 : fileExists (fs0.create "a.mp3".toList) "a.mp3".toList = true := by
    rw [fileExists_create]; simp
  have hN1 : fileExists (fs0.create "a.mp3".toList) "a_1.mp3".toList = false := by
    rw [fileExists_create, hN0]
    have : "a_1.mp3".toList ≠ "a.mp3".toList := by decide
    simp [this]
  have hr3 : resolveOutput env.windows (fs0.create "a.mp3".toList) "a.mp4".toList fuel =
      some "a_1.mp3".toList := by
    rw [← hc1]
    apply resolveOutput_of_first_free _ _ _ 1 fuel (by rw [hc1]; exact hN1) _ (by omega)
    intro j hj
    have : j = 0 := by omega
    rw [this, hc0]
    exact hM1
  have hp3 := processFile_valid fuel env ff
    ⟨[] ++ [callResult env "a.mp4".toList "a.mp3".toList none] ++
        [skipResult env "b.txt".toList],
      fs0.create "a.mp3".toList,
      [] ++ [⟨"a.mp4".toList, "a.mp3".toList, ff, fs0⟩]⟩ "a.mp4".toList
    (isSupportedFormat_a_mp4 _) hA1
  simp only [hr3, convertToMp3_of_mock env _ _ _ _ hrun] at hp3
  simp only at hp2
  refine ⟨⟨[] ++ [callResult env "a.mp4".toList "a.mp3".toList none] ++
        [skipResult env "b.txt".toList] ++
        [callResult env "a.mp4".toList "a_1.mp3".toList none],
      (fs0.create "a.mp3".toList).create "a_1.mp3".toList,
      [] ++ [⟨"a.mp4".toList, "a.mp3".toList, ff, fs0⟩] ++
        [⟨"a.mp4".toList, "a_1.mp3".toList, ff, fs0.create "a.mp3".toList⟩]⟩, ?_, ?_⟩
  · rw [convertFiles_of_ok fuel env fs _ ff hfind, hfs0]
    simp only [convertLoop, hp1, hp2, hp3]
  · simp only [callResult, skipResult, hb1, hb2, hb3, List.nil_append, List.cons_append,
      List.singleton_append]
    decide

/-! ## A run that does not return -/

theorem resolveOutput_none_of_all_exist (w : Bool) (fs : FS) (file : GoString) (fuel : Nat)
    (h : ∀ k, fileExists fs (candidate (TrimSuffix file (Ext w file)) k) = true) :
    resolveOutput w fs file fuel = none := by
  cases hres : resolveOutput w fs file fuel with
  | none => rfl
  | some out =>
    exfalso
    obtain ⟨k, _, _, hfree, _⟩ := first_free_of_resolveOutput w fs file fuel out hres
    rw [h k] at hfree
    exact absurd hfree (by simp)

/-- C3 at `C:\v.1\a.mp4`: writing the extension as `.Mp4` gives the same answer. -/
theorem isSupportedFormat_spec_witness :
    isSupportedFormat demoPlatform "C:\\v.1\\a.Mp4".toList =
      isSupportedFormat demoPlatform "C:\\v.1\\a.mp4".toList :=
  (isSupportedFormat_spec demoPlatform "C:\\v.1\\a.mp4".toList).2.2.1
    "C:\\v.1\\a".toList ".mp4".toList ".Mp4".toList (by decide) (by decide) (by decide)

/-- C6 with `ffmpeg.exe` next to the program and not on the search path. -/
theorem findFFmpeg_order_witness :
    (findFFmpeg (demoEnv false emptyEmbed)
      (FS.ofList ["C:\\app\\ffmpeg.exe".toList, "C:\\app\\bin\\ffmpeg.exe".toList])).value =
      .ok (programFFmpeg (demoEnv false emptyEmbed)) :=
  (findFFmpeg_order (demoEnv false emptyEmbed)
    (FS.ofList ["C:\\app\\ffmpeg.exe".toList, "C:\\app\\bin\\ffmpeg.exe".toList])).2.1
    (by decide) (by decide)

theorem foundNowhere_demo (embedded : GoString → Except GoString Data) :
    FoundNowhere (demoEnv false embedded) (FS.ofList []) :=
  ⟨rfl, rfl, rfl, rfl, rfl⟩

/-- C7 with an empty file system and an empty embedded file set. -/
theorem findFFmpeg_error_witness :
    (∃ cause, (demoEnv false emptyEmbed).embeddedFiles "ffmpeg.exe".toList = .error cause ∧
      (findFFmpeg (demoEnv false emptyEmbed) (FS.ofList [])).value =
        .error ("无法读取嵌入的FFmpeg资源: ".toList ++ cause)) ∧
    (findFFmpeg (demoEnv false emptyEmbed) (FS.ofList [])).writes = [] ∧
    (findFFmpeg (demoEnv false emptyEmbed) (FS.ofList [])).fs = FS.ofList [] ∧
    fileExists (findFFmpeg (demoEnv false emptyEmbed) (FS.ofList [])).fs
      (tmpFFmpegPath (demoEnv false emptyEmbed)) = false :=
  (findFFmpeg_error (demoEnv false emptyEmbed) (FS.ofList [])).1
    (foundNowhere_demo emptyEmbed) (by decide) (fun _ => ⟨_, rfl⟩)

/-- C8 with an empty file system and `ffmpeg.exe` embedded: the first call
writes `C:\Temp\ffmpeg.exe`, the next two calls return it without writing. -/
theorem findFFmpeg_idempotent_witness :
    tmpFFmpegPath (demoEnv false fullEmbed) = tmpFFmpegPath (demoEnv false fullEmbed) ∧
    (findFFmpeg (demoEnv false fullEmbed) (FS.ofList [])).writes =
      [tmpFFmpegPath (demoEnv false fullEmbed)] ∧
    ∀ n, (fun s => (findFFmpeg (demoEnv false fullEmbed) s).fs)^[n]
          (findFFmpeg (demoEnv false fullEmbed) (FS.ofList [])).fs =
        (findFFmpeg (demoEnv false fullEmbed) (FS.ofList [])).fs ∧
      findFFmpeg (demoEnv false fullEmbed)
          ((fun s => (findFFmpeg (demoEnv false fullEmbed) s).fs)^[n]
            (findFFmpeg (demoEnv false fullEmbed) (FS.ofList [])).fs) =
        ⟨.ok (tmpFFmpegPath (demoEnv false fullEmbed)),
          (findFFmpeg (demoEnv false fullEmbed) (FS.ofList [])).fs, []⟩ :=
  findFFmpeg_idempotent (demoEnv false fullEmbed) (FS.ofList [])
    (tmpFFmpegPath (demoEnv false fullEmbed)) rfl (by decide) rfl

/-- C2 with nothing to find and nothing embedded: two inputs, one outcome. -/
theorem convertFiles_resolution_error_witness :
    ∃ st, convertFiles 5 (demoEnv false emptyEmbed) (FS.ofList ["a.mp4".toList])
        ["a.mp4".toList, "b.txt".toList] = Outcome.done st ∧
      st.results = [⟨false, "错误: ".toList ++ ("无法读取嵌入的FFmpeg资源: ".toList ++
        "open ffmpeg.exe: file does not exist".toList)⟩] ∧
      st.results.length = 1 ∧ st.calls = [] :=
  convertFiles_resolution_error 5 (demoEnv false emptyEmbed) (FS.ofList ["a.mp4".toList])
    ["a.mp4".toList, "b.txt".toList]
    ("无法读取嵌入的FFmpeg资源: ".toList ++ "open ffmpeg.exe: file does not exist".toList) rfl

theorem demo_calls :
    (convertFiles 1 (demoEnv true emptyEmbed) (FS.ofList ["a.mp4".toList])
      ["a.mp4".toList]).state.calls =
      [⟨"a.mp4".toList, "a.mp3".toList, "ffmpeg".toList, FS.ofList ["a.mp4".toList]⟩] := by
  rfl

/-- C9 on the single input `a.mp4`, which exists: the one call writes to `a.mp3`. -/
theorem convertFiles_calls_safe_witness :
    "a.mp3".toList ≠ "a.mp4".toList ∧
    fileExists (FS.ofList ["a.mp4".toList]) "a.mp3".toList = false ∧
    fileExists (FS.ofList ["a.mp4".toList]) "a.mp4".toList = true ∧
    "a.mp4".toList ∈ ["a.mp4".toList] ∧
    isSupportedFormat demoPlatform "a.mp4".toList = true :=
  convertFiles_calls_safe 1 (demoEnv true emptyEmbed) (FS.ofList ["a.mp4".toList])
    ["a.mp4".toList]
    ⟨"a.mp4".toList, "a.mp3".toList, "ffmpeg".toList, FS.ofList ["a.mp4".toList]⟩
    (by rw [demo_calls]; exact List.mem_singleton_self _)

/-- C5 on the demo platform with `ffmpeg` on the search path. -/
theorem convertFiles_scenario_witness :
    ∃ st, convertFiles 2 (demoEnv true emptyEmbed) (FS.ofList ["a.mp4".toList])
        ["a.mp4".toList, "b.txt".toList, "a.mp4".toList] = Outcome.done st ∧
      st.results = [⟨true, "转换成功: a.mp3".toList⟩,
        ⟨false, "文件不支持或不存在: b.txt".toList⟩,
        ⟨true, "转换成功: a_1.mp3".toList⟩] :=
  convertFiles_scenario 2 (demoEnv true emptyEmbed) (FS.ofList ["a.mp4".toList])
    "ffmpeg".toList (Nat.le_refl 2) rfl (by decide) (by decide) (by decide)
    ⟨by decide, by decide⟩ (by decide) (fun _ _ _ => rfl)

/-! ## Runs in which every valid input has a free output name -/

/-- When a resolution returns `out` and a resolution after `out` was created
returns `out2`, then `out2` is another candidate, of larger index. -/
theorem resolveOutput_again (w : Bool) (fs : FS) (file : GoString) (fuel fuel2 : Nat)
    (out out2 : GoString) (h : resolveOutput w fs file fuel = some out)
    (h2 : resolveOutput w (fs.create out) file fuel2 = some out2) :
    out2 ≠ out ∧ ∃ k k2, out = candidate (TrimSuffix file (Ext w file)) k ∧
      out2 = candidate (TrimSuffix file (Ext w file)) k2 ∧ k < k2 := by
  obtain ⟨k, _, e, hfree, hex⟩ := first_free_of_resolveOutput w fs file fuel out h
  obtain ⟨k2, _, e2, hfree2, _⟩ :=
    first_free_of_resolveOutput w (fs.create out) file fuel2 out2 h2
  have hlt : k < k2 := by
    by_contra hge
    have hle : k2 ≤ k := Nat.le_of_not_lt hge
    rw [fileExists_create] at hfree2
    simp only [Bool.or_eq_false_iff, decide_eq_false_iff_not] at hfree2
    rcases Nat.lt_or_eq_of_le hle with hl | he
    · rw [hex k2 hl] at hfree2
      exact absurd hfree2.2 (by simp)
    · rw [he, ← e] at hfree2
      exact hfree2.1 rfl
  refine ⟨?_, k, k2, e, e2, hlt⟩
  intro heq
  rw [e, e2] at heq
  have := candidate_injective _ _ _ heq
  omega

/-- C4, amended: the output path computed in `convertFiles` for a source is the
first member of `base.mp3`, `base_1.mp3`, `base_2.mp3`, ... that does not exist,
where `base` is the source without its extension: with enough fuel the loop
returns that member, and whatever it returns is that member.  The result does
not exist in the state it was computed in.  Resolving again once the result has
been created: when another member does not exist, the second resolution returns
a different member, of larger index; when every other member exists, it returns
for no fuel; and whatever it returns is a different member of larger index.
Different indices give different paths; every member lies in the directory of
the source. -/
theorem resolveOutput_spec (w : Bool) (fs : FS) (file : GoString) :
    (∀ k fuel, k < fuel →
      fileExists fs (candidate (TrimSuffix file (Ext w file)) k) = false →
      (∀ j, j < k → fileExists fs (candidate (TrimSuffix file (Ext w file)) j) = true) →
      resolveOutput w fs file fuel = some (candidate (TrimSuffix file (Ext w file)) k)) ∧
    (∀ fuel out, resolveOutput w fs file fuel = some out →
      ∃ k, out = candidate (TrimSuffix file (Ext w file)) k ∧
        fileExists fs (candidate (TrimSuffix file (Ext w file)) k) = false ∧
        ∀ j, j < k → fileExists fs (candidate (TrimSuffix file (Ext w file)) j) = true) ∧
    (∀ fuel out, resolveOutput w fs file fuel = some out → fileExists fs out = false) ∧
    (∀ fuel out m, resolveOutput w fs file fuel = some out →
      fileExists fs (candidate (TrimSuffix file (Ext w file)) m) = false →
      candidate (TrimSuffix file (Ext w file)) m ≠ out →
      ∃ k k2, out = candidate (TrimSuffix file (Ext w file)) k ∧ k < k2 ∧ k2 ≤ m ∧
        resolveOutput w (fs.create out) file (m + 1) =
          some (candidate (TrimSuffix file (Ext w file)) k2) ∧
        candidate (TrimSuffix file (Ext w file)) k2 ≠ out) ∧
    (∀ fuel out, resolveOutput w fs file fuel = some out →
      (∀ m, candidate (TrimSuffix file (Ext w file)) m ≠ out →
        fileExists fs (candidate (TrimSuffix file (Ext w file)) m) = true) →
      ∀ fuel2, resolveOutput w (fs.create out) file fuel2 = none) ∧
    (∀ fuel out fuel2 out2, resolveOutput w fs file fuel = some out →
      resolveOutput w (fs.create out) file fuel2 = some out2 →
      out2 ≠ out ∧ ∃ k k2, out = candidate (TrimSuffix file (Ext w file)) k ∧
        out2 = candidate (TrimSuffix file (Ext w file)) k2 ∧ k < k2) ∧
    (∀ j k, candidate (TrimSuffix file (Ext w file)) j =
      candidate (TrimSuffix file (Ext w file)) k → j = k) ∧
    (∀ k, directoryPart w (candidate (TrimSuffix file (Ext w file)) k) =
      directoryPart w file) := by
  refine ⟨?_, ?_, ?_, ?_, ?_, ?_, ?_, ?_⟩
  · intro k fuel hk hfree hex
    exact resolveOutput_of_first_free w fs file k fuel hfree hex hk
  · intro fuel out h
    obtain ⟨k, _, e, hfree, hex⟩ := first_free_of_resolveOutput w fs file fuel out h
    exact ⟨k, e, hfree, hex⟩
  · intro fuel out h
    obtain ⟨k, _, e, hfree, _⟩ := first_free_of_resolveOutput w fs file fuel out h
    rw [e]; exact hfree
  · intro fuel out m h hfree hne
    have hfree2 : fileExists (fs.create out)
        (candidate (TrimSuffix file (Ext w file)) m) = false := by
      rw [fileExists_create, hfree]
      simp [hne]
    obtain ⟨k2, hk2, hres2⟩ := resolveOutput_of_free w (fs.create out) file m hfree2
    obtain ⟨hdiff, k, k3, e, e3, hlt⟩ :=
      resolveOutput_again w fs file fuel (m + 1) out _ h hres2
    have hk : k3 = k2 := candidate_injective _ _ _ e3.symm
    rw [hk] at hlt
    exact ⟨k, k2, e, hlt, hk2, hres2, hdiff⟩
  · intro fuel out h hall fuel2
    apply resolveOutput_none_of_all_exist
    intro k
    rw [fileExists_create]
    by_cases hk : candidate (TrimSuffix file (Ext w file)) k = out
    · simp [hk]
    · simp [hall k hk]
  · intro fuel out fuel2 out2 h h2
    exact resolveOutput_again w fs file fuel fuel2 out out2 h h2
  · intro j k h
    exact candidate_injective _ j k h
  · intro k
    rw [directoryPart_candidate, directoryPart_TrimSuffix]

/-- C4, amended, at `a.mp4` in a state where `a.mp4` and `a.mp3` exist: the
first result is `a_1.mp3`; `a_2.mp3` is free, so the second resolution returns
another candidate, of larger index. -/
theorem resolveOutput_spec_witness :
    ∃ k k2, "a_1.mp3".toList =
        candidate (TrimSuffix "a.mp4".toList (Ext true "a.mp4".toList)) k ∧ k < k2 ∧ k2 ≤ 2 ∧
      resolveOutput true
          ((FS.ofList ["a.mp4".toList, "a.mp3".toList]).create "a_1.mp3".toList)
          "a.mp4".toList (2 + 1) =
        some (candidate (TrimSuffix "a.mp4".toList (Ext true "a.mp4".toList)) k2) ∧
      candidate (TrimSuffix "a.mp4".toList (Ext true "a.mp4".toList)) k2 ≠
        "a_1.mp3".toList :=
  (resolveOutput_spec true (FS.ofList ["a.mp4".toList, "a.mp3".toList])
    "a.mp4".toList).2.2.2.1 3 "a_1.mp3".toList 2 (by decide) (by decide) (by decide)

theorem longFile_base : TrimSuffix longFile (Ext true longFile) = longBase := by
  have he : Ext true longFile = ".mp4".toList :=
    Ext_append_dot true longBase "mp4".toList (by decide)
  rw [he]
  exact TrimSuffix_append longBase ".mp4".toList

theorem longNameFS_candidate (k : Nat) :
    fileExists (longNameFS.create (longBase ++ ".mp3".toList))
      (candidate (TrimSuffix longFile (Ext true longFile)) k) = true := by
  rw [longFile_base, fileExists_create]
  cases k with
  | zero => simp [candidate]
  | succ k =>
    have hlen : 255 < (candidate longBase (k + 1)).length := by
      simp only [candidate, List.length_append, longBase, List.length_replicate]
      have : (".mp3".toList).length = 4 := by decide
      have : ("_".toList).length = 1 := by decide
      omega
    have : fileExists longNameFS (candidate longBase (k + 1)) = true := by
      simp [fileExists, longNameFS, hlen]
    rw [this]; simp

/-- C4 fails as stated: on a file system that limits names to 255 characters,
for the existing, supported source `longFile` (255 characters) the first
resolution returns `longBase.mp3`, which does not exist; once that file has been
created every candidate is reported as existing (the created one, and the longer
ones because `os.Stat` fails on them), so the second resolution returns no path,
whatever the fuel. -/
theorem resolveOutput_again_hangs :
    isSupportedFormat demoPlatform longFile = true ∧
    fileExists longNameFS longFile = true ∧
    fileExists longNameFS (longBase ++ ".mp3".toList) = false ∧
    resolveOutput true longNameFS longFile 1 = some (longBase ++ ".mp3".toList) ∧
    ∀ fuel,
      resolveOutput true (longNameFS.create (longBase ++ ".mp3".toList)) longFile fuel =
        none := by
  have he : Ext true longFile = ".mp4".toList :=
    Ext_append_dot true longBase "mp4".toList (by decide)
  have hfree : fileExists longNameFS (longBase ++ ".mp3".toList) = false := by
    have hlen : ¬ 255 < (longBase ++ ".mp3".toList).length := by
      have h4 : (".mp3".toList).length = 4 := by decide
      simp only [List.length_append, longBase, List.length_replicate, h4]
      omega
    have hne : longBase ++ ".mp3".toList ≠ longFile := by
      intro h
      have := List.append_cancel_left h
      revert this
      decide
    have hst : longNameFS (longBase ++ ".mp3".toList) = StatResult.notExist := by
      simp only [longNameFS, hlen, hne, if_false]
    rw [fileExists_eq_false_iff]
    exact hst
  refine ⟨?_, ?_, hfree, ?_, ?_⟩
  · rw [isSupportedFormat_eq_true_iff]
    show ToLower demoPlatform (Ext true longFile) ∈ supportedFormats
    rw [he]
    decide
  · have hlen : ¬ 255 < longFile.length := by
      have h4 : (".mp4".toList).length = 4 := by decide
      simp only [longFile, List.length_append, longBase, List.length_replicate, h4]
      omega
    have hst : longNameFS longFile = StatResult.found := by
      simp only [longNameFS, hlen, if_false, if_true]
    simp only [fileExists, hst]
    decide
  · have h := resolveOutput_of_first_free true longNameFS longFile 0 1
      (by rw [longFile_base]; exact hfree) (fun j hj => absurd hj (Nat.not_lt_zero j))
      (Nat.lt_succ_self 0)
    rw [longFile_base] at h
    exact h
  · intro fuel
    exact resolveOutput_none_of_all_exist true _ longFile fuel longNameFS_candidate

end All2mp3
